import Mathlib

/-!
# Sensor-log statistics tool (formattedInput.c): embedding and verification

The C program is embedded as pure Lean functions.

* A C string is a `List Char`; the terminating NUL is implicit, so reading the
  character at an index at or past the end of the list yields NUL.
* `FILE *inputFile` is the list of characters still to be read; `fgets` is
  modelled on it, so a line of the file longer than `MAX_LINE_LENGTH - 1`
  characters reaches the loop body in several pieces, as in the C program.
  `fileLines` are the pieces that the `fgets` calls return and `textLines` are
  the lines of the file; they agree when every line of the file fits the
  buffer (`fileLines_eq_textLines`).
* Float values live in an ordered field `V`. The library functions `atof` and
  `sqrt` and the float value `INFINITY` are parameters of the embedding, so a
  reading may be equal to `INFINITY` or to `-INFINITY`, the initial values of
  the extremes. To run the embedding, `atofFloat` reads a decimal constant and
  maps the values beyond the range of `float` to `floatInfinity` and its
  negative, as the conversion of `readings[numSensors] = atof(token)` does.
* `exit(1)` after a message on stderr is `Abort.exit` with the kind of the
  message; a store outside a fixed-size buffer is `Abort.undefined`, and a run
  that ends so is not a successful run.
* Loops over characters take a fuel argument; the lemmas `isValidLoop_fuel`,
  `strtokAll_fuel` and `fgetsLines_fuel` show that the fuel given is enough.

The file also embeds `centsToBills` of EnhancedChangeMachine.c, on integers with
explicit wrap-around to 32 bits, and the calculation loop of AccelModel.c, on
rationals.
-/

set_option autoImplicit false

/-! ## Constants -/

/-- Source: `#define MAX_LINE_LENGTH 500`. -/
def MAX_LINE_LENGTH : Nat := 500

/-- Source: `#define MAX_SENSORS 100`. -/
def MAX_SENSORS : Nat := 100

/-- Source: `#define BUFFER 50`. -/
def BUFFER : Nat := 50

/-! ## C library functions used by the program -/

/-- The NUL character that terminates a C string. -/
def NUL : Char := Char.ofNat 0

/-- The C string held in a buffer: the characters before the first NUL. -/
def cstr (buf : List Char) : List Char := buf.takeWhile (fun c => c ≠ NUL)

/-- Character `str[i]` of a C string; the terminator is read at and past the end. -/
def charAt (str : List Char) (i : Nat) : Char := str.getD i NUL

/-- The C function `isdigit` in the C locale. -/
def isdigit (c : Char) : Bool := c.isDigit

/-- The C function `strlen`. -/
def strlen (s : List Char) : Nat := s.length

/-- The C function `strspn`: length of the longest prefix made of characters of `accept`. -/
def strspn (s accept : List Char) : Nat := (s.takeWhile (fun c => accept.contains c)).length

/-- The characters `fgets` stores when at most `k` characters may still be stored,
together with the rest of the stream: reading stops after a newline. -/
def fgetsChars : Nat → List Char → List Char × List Char
  | 0, s => ([], s)
  | _ + 1, [] => ([], [])
  | k + 1, c :: s =>
    if c = '\n' then ([c], s)
    else ((fgetsChars k s).1.cons c, (fgetsChars k s).2)

/-- The C function `fgets(line, n, inputFile)`: `none` at end of file, otherwise the
line stored in the buffer and the rest of the stream. -/
def fgets (n : Nat) (inputFile : List Char) : Option (List Char × List Char) :=
  if inputFile = [] then none else some (fgetsChars (n - 1) inputFile)

/-- The lines that successive `fgets(line, n, inputFile)` calls return until end of file. -/
def fgetsLines (n : Nat) : Nat → List Char → List (List Char)
  | 0, _ => []
  | fuel + 1, inputFile =>
    match fgets n inputFile with
    | none => []
    | some (line, rest) => line :: fgetsLines n fuel rest

/-- The C function `strtok` on the string that starts at the saved position `s`: skip
leading delimiters; `none` (NULL) when nothing is left, otherwise the token and the new
saved position, just after the delimiter that ended the token. -/
def strtok (delim s : List Char) : Option (List Char × List Char) :=
  match s.dropWhile (fun c => delim.contains c) with
  | [] => none
  | c :: r =>
    some ((c :: r).takeWhile (fun d => ¬ delim.contains d),
          ((c :: r).dropWhile (fun d => ¬ delim.contains d)).drop 1)

/-- The tokens that `strtok(s, delim)` and then successive `strtok(NULL, delim)` calls
return until NULL. -/
def strtokAll (delim : List Char) : Nat → List Char → List (List Char)
  | 0, _ => []
  | fuel + 1, s =>
    match strtok delim s with
    | none => []
    | some (token, saved) => token :: strtokAll delim fuel saved

/-- The C function `strcpy` into a buffer of `size` characters: the copy, or `none`
when the string and its terminator do not fit (the store runs past the buffer). -/
def strcpy (size : Nat) (src : List Char) : Option (List Char) :=
  if src.length + 1 ≤ size then some src else none

/-! ## isValidSensorReading -/

/-- The `while` loop of `isValidSensorReading`, started at index `i` with the three flags. -/
def isValidLoop (str : List Char) : Nat → Nat → Bool → Bool → Bool → Int
  | 0, _, _, _, _ => 0
  | fuel + 1, i, hasDigit, hasEe, hasDot =>
    if charAt str i ≠ NUL ∧ charAt str i ≠ '\n' then
      if isdigit (charAt str i) then
        isValidLoop str fuel (i + 1) true hasEe hasDot
      else if charAt str i = '.' then
        if hasDot ∨ hasEe then 0
        else isValidLoop str fuel (i + 1) hasDigit hasEe true
      else if charAt str i = 'e' ∨ charAt str i = 'E' then
        if hasEe ∨ ¬ hasDigit then 0
        else if ¬ isdigit (charAt str
            (if charAt str (i + 1) = '+' ∨ charAt str (i + 1) = '-' then i + 2 else i + 1)) then 0
        else isValidLoop str fuel
            ((if charAt str (i + 1) = '+' ∨ charAt str (i + 1) = '-' then i + 2 else i + 1) + 1)
            hasDigit true hasDot
      else 0
    else if hasDigit then 1 else 0

/-- Source: `int isValidSensorReading(char *str)`. Every iteration advances `i`, so
`str.length + 1` iterations reach the terminator. -/
def isValidSensorReading (str : List Char) : Int :=
  isValidLoop str (str.length + 1)
    (if charAt str 0 = '+' ∨ charAt str 0 = '-' then 1 else 0) false false false

/-! ## calcSensorStats -/

/-- The accumulation loop of `calcSensorStats`: `(sum_x, sum_x2)` after the iterations
`i = 0 .. count - 1`. -/
def sumLoop {V : Type} [LinearOrderedField V] (readings : Nat → V) : Nat → V × V
  | 0 => (0, 0)
  | i + 1 =>
    ((sumLoop readings i).1 + readings i,
     (sumLoop readings i).2 + readings i * readings i)

/-- Source: `void calcSensorStats(float readings[], int count, float *mean, float *std_dev)`.
The result is the pair `(*mean, *std_dev)`. -/
def calcSensorStats {V : Type} [LinearOrderedField V] (sqrt : V → V)
    (readings : Nat → V) (count : Nat) : V × V :=
  if count = 0 then (0, 0)
  else
    ((sumLoop readings count).1 / (count : V),
     if count > 1 then
       sqrt (((count : V) * (sumLoop readings count).2
              - (sumLoop readings count).1 * (sumLoop readings count).1)
             / ((count : V) * ((count : V) - 1)))
     else 0)

/-! ## readSensorData -/

/-- The messages that precede `exit(1)` in `readSensorData`. The test
`numSensors >= MAX_SENSORS` and the column-count test print the same message. -/
inductive ErrorKind where
  /-- Message: Terminating program (improperly formatted data). -/
  | improperlyFormatted
  /-- Message: Terminating program (inconsistent sensor readings). -/
  | inconsistentSensorReadings
  /-- Message: Terminating program (Invalid sensor reading TOKEN). -/
  | invalidSensorReading (token : List Char)
  /-- Message: Terminating program (no sensor data to process). -/
  | noSensorData
  deriving DecidableEq

/-- How a run stops before the report. -/
inductive Abort where
  /-- A message on stderr followed by `exit(1)`. -/
  | exit (kind : ErrorKind)
  /-- A store outside `timeStamp[BUFFER]` or outside a row of
  `allReadings[MAX_SENSORS][MAX_LINE_LENGTH]`: undefined behaviour. -/
  | undefined
  deriving DecidableEq

/-- The local variables of `readSensorData`. The array `readings` is left out: each of
its elements is read only in the iteration that stores it. -/
structure State (V : Type) where
  timeStamp : List Char
  numSensors : Nat
  maxReading : V
  minReading : V
  maxTimestamp : List Char
  minTimestamp : List Char
  allReadings : Nat → Nat → V
  totalReadings : Nat
  expectedSensorCount : Int

/-- The declarations at the top of `readSensorData`, with `maxReading = -INFINITY` and
`minReading = INFINITY`; cells of `allReadings` that were never stored are shown as 0. -/
def initialState (V : Type) [LinearOrderedField V] (INFINITY : V) : State V where
  timeStamp := []
  numSensors := 0
  maxReading := -INFINITY
  minReading := INFINITY
  maxTimestamp := [' ']
  minTimestamp := [' ']
  allReadings := fun _ _ => 0
  totalReadings := 0
  expectedSensorCount := -1

/-- The inner loop `while (token != NULL)` over the reading tokens of one line. -/
def readingsLoop {V : Type} [LinearOrderedField V] (atof : List Char → V) :
    List (List Char) → State V → Except Abort (State V)
  | [], st => .ok st
  | token :: rest, st =>
    if st.numSensors ≥ MAX_SENSORS then .error (.exit .inconsistentSensorReadings)
    else if isValidSensorReading token = 0 then .error (.exit (.invalidSensorReading token))
    else if st.totalReadings ≥ MAX_LINE_LENGTH then .error .undefined
    else
      readingsLoop atof rest
        { st with
          allReadings := fun i j =>
            if i = st.numSensors ∧ j = st.totalReadings then atof token else st.allReadings i j
          maxReading := if atof token > st.maxReading then atof token
                        else st.maxReading
          maxTimestamp := if atof token > st.maxReading then st.timeStamp
                          else st.maxTimestamp
          minReading := if atof token < st.minReading then atof token
                        else st.minReading
          minTimestamp := if atof token < st.minReading then st.timeStamp
                          else st.minTimestamp
          numSensors := st.numSensors + 1 }

/-- The delimiters given to `strtok`: space and tab. -/
def tokenDelims : List Char := [' ', '\t']

/-- The tokens of a line: what `strtok(line, " \t")` and the following
`strtok(NULL, " \t")` calls return. -/
def lineTokens (line : List Char) : List (List Char) :=
  strtokAll tokenDelims line.length line

/-- The test that skips a line: `line[0] == 0 || strspn(line, " \t\n\r") == strlen(line)`. -/
def isSkipped (line : List Char) : Bool :=
  charAt line 0 = NUL ∨ strspn line [' ', '\t', '\n', '\r'] = strlen line

/-- The body of the loop `while (fgets(line, MAX_LINE_LENGTH, inputFile))` after the
test that skips blank lines, for the tokens of the line. -/
def processTokens {V : Type} [LinearOrderedField V] (atof : List Char → V)
    (tokens : List (List Char)) (st : State V) : Except Abort (State V) :=
  match tokens with
  | [] => .error (.exit .improperlyFormatted)
  | token :: rest =>
    match strcpy BUFFER token with
    | none => .error .undefined
    | some ts =>
      match readingsLoop atof rest { st with numSensors := 0, timeStamp := ts } with
      | .error a => .error a
      | .ok st1 =>
        if st1.expectedSensorCount = -1 then
          .ok { st1 with expectedSensorCount := st1.numSensors,
                         totalReadings := st1.totalReadings + 1 }
        else if (st1.numSensors : Int) ≠ st1.expectedSensorCount then
          .error (.exit .inconsistentSensorReadings)
        else .ok { st1 with totalReadings := st1.totalReadings + 1 }

/-- The body of the loop `while (fgets(line, MAX_LINE_LENGTH, inputFile))` for the buffer
content `buf`. -/
def processLine {V : Type} [LinearOrderedField V] (atof : List Char → V)
    (buf : List Char) (st : State V) : Except Abort (State V) :=
  if isSkipped (cstr buf) then .ok st
  else processTokens atof (lineTokens (cstr buf)) st

/-- The loop `while (fgets(line, MAX_LINE_LENGTH, inputFile))` over the lines read. -/
def ingestLines {V : Type} [LinearOrderedField V] (atof : List Char → V) :
    List (List Char) → State V → Except Abort (State V)
  | [], st => .ok st
  | buf :: bufs, st =>
    match processLine atof buf st with
    | .error a => .error a
    | .ok st1 => ingestLines atof bufs st1

/-- The lines that the loop of `readSensorData` reads from `inputFile`. -/
def fileLines (inputFile : List Char) : List (List Char) :=
  fgetsLines MAX_LINE_LENGTH inputFile.length inputFile

/-- The ingestion part of `readSensorData`: the state when `fgets` reports end of file. -/
def ingest {V : Type} [LinearOrderedField V] (atof : List Char → V) (INFINITY : V)
    (inputFile : List Char) : Except Abort (State V) :=
  ingestLines atof (fileLines inputFile) (initialState V INFINITY)

/-- The arguments that `readSensorData` passes to `printData`, which writes them to
`outputFile`; `stats` holds `(means[i], std_devs[i])` for `i < sensorCount`. -/
structure Report (V : Type) where
  maxReading : V
  maxTimestamp : List Char
  minReading : V
  minTimestamp : List Char
  sensorCount : Nat
  stats : List (V × V)

/-- The result of a run of `readSensorData`. -/
inductive Outcome (V : Type) where
  /-- The run stopped before `printData`. -/
  | aborted (a : Abort)
  /-- The run reached `printData` with these arguments. -/
  | reported (r : Report V)

/-- What a run writes to `outputFile`: only `printData` writes to it. -/
def Outcome.output {V : Type} : Outcome V → Option (Report V)
  | .aborted _ => none
  | .reported r => some r

/-- The end of `readSensorData`, after the reading loop. -/
def finish {V : Type} [LinearOrderedField V] (sqrt : V → V) (st : State V) : Outcome V :=
  if st.totalReadings = 0 then .aborted (.exit .noSensorData)
  else
    .reported
      { maxReading := st.maxReading
        maxTimestamp := st.maxTimestamp
        minReading := st.minReading
        minTimestamp := st.minTimestamp
        sensorCount := st.numSensors
        stats := (List.range st.numSensors).map
          (fun i => calcSensorStats sqrt (st.allReadings i) st.totalReadings) }

/-- Source: `void readSensorData(FILE *inputFile, FILE *outputFile)`. The library's
`sqrt` and `atof` and the float value `INFINITY` are parameters. -/
def readSensorData {V : Type} [LinearOrderedField V] (sqrt : V → V) (atof : List Char → V)
    (INFINITY : V) (inputFile : List Char) : Outcome V :=
  match ingest atof INFINITY inputFile with
  | .error a => .aborted a
  | .ok st => finish sqrt st

/-- How a run stopped before `printData`, if it did. -/
def Outcome.abort {V : Type} : Outcome V → Option Abort
  | .aborted a => some a
  | .reported _ => none

/-! ## Specification-side notions -/

/-- An optional sign: nothing, `+` or `-`. -/
def OptSign (s : List Char) : Prop := s = [] ∨ s = ['+'] ∨ s = ['-']

/-- A body made of digits and at most one `.` that contains at least one digit. -/
def ReadingBody (b : List Char) : Prop :=
  (∀ c ∈ b, isdigit c = true ∨ c = '.') ∧ b.count '.' ≤ 1 ∧ ∃ c ∈ b, isdigit c = true

/-- An optional sign followed by one or more digits. -/
def SignedDigits (t : List Char) : Prop :=
  ∃ sg ds, t = sg ++ ds ∧ OptSign sg ∧ ds ≠ [] ∧ ∀ c ∈ ds, isdigit c = true

/-- One `e` or `E`, an optional sign, and one or more digits. -/
def ReadingExponent (x : List Char) : Prop :=
  ∃ m t, x = m :: t ∧ (m = 'e' ∨ m = 'E') ∧ SignedDigits t

/-- The form of a valid reading: optional sign, body, optional exponent, nothing else. -/
def ReadingForm (s : List Char) : Prop :=
  ∃ sg body ex, s = sg ++ body ++ ex ∧ OptSign sg ∧ ReadingBody body ∧
    (ex = [] ∨ ReadingExponent ex)

/-- What remains to be read in the body phase of the validator: the rest of a body and
an optional exponent, given whether a digit (`hd`) and a `.` (`hdot`) were already seen. -/
def BodyRest (hd hdot : Bool) (t : List Char) : Prop :=
  ∃ body ex, t = body ++ ex ∧ (∀ c ∈ body, isdigit c = true ∨ c = '.') ∧
    body.count '.' + (if hdot then 1 else 0) ≤ 1 ∧
    (hd = true ∨ ∃ c ∈ body, isdigit c = true) ∧
    (ex = [] ∨ ReadingExponent ex)

/-- The number written by a run of decimal digits that continues the value `acc`. -/
def digitsValue : List Char → Nat → Nat
  | [], acc => acc
  | c :: s, acc => digitsValue s (10 * acc + (c.toNat - 48))

/-- The C library function `atof` on a decimal floating constant (optional sign, digits
with an optional `.`, optional exponent), in exact arithmetic: the conversion stops at
the first character that does not continue the constant. -/
def atofDecimal (s : List Char) : ℚ :=
  let negative := charAt s 0 = '-'
  let s1 := if charAt s 0 = '+' ∨ charAt s 0 = '-' then s.drop 1 else s
  let intPart := s1.takeWhile isdigit
  let s2 := s1.dropWhile isdigit
  let fracPart := if charAt s2 0 = '.' then (s2.drop 1).takeWhile isdigit else []
  let s3 := if charAt s2 0 = '.' then (s2.drop 1).dropWhile isdigit else s2
  let s4 := if charAt s3 1 = '+' ∨ charAt s3 1 = '-' then s3.drop 2 else s3.drop 1
  let expDigits := if charAt s3 0 = 'e' ∨ charAt s3 0 = 'E' then s4.takeWhile isdigit else []
  let expNegative := charAt s3 1 = '-'
  let mantissa := digitsValue (intPart ++ fracPart) 0
  let up := if expNegative then 0 else digitsValue expDigits 0
  let down := fracPart.length + (if expNegative then digitsValue expDigits 0 else 0)
  let magnitude := mkRat ((mantissa * 10 ^ up : Nat) : Int) (10 ^ down)
  if negative then -magnitude else magnitude

/-- The rational that stands for the float value `INFINITY`: 2^128, the first power of two
beyond the range of `float`. -/
def floatInfinity : ℚ := 340282366920938463463374607431768211456

/-- The least magnitude that the conversion to `float` rounds to infinity: 2^128 - 2^103,
half a unit in the last place above `FLT_MAX`. -/
def floatOverflow : ℚ := 340282356779733661637539395458142568448

/-- The float stored by `readings[numSensors] = atof(token)` as far as its range is
concerned: a constant of magnitude `floatOverflow` or more becomes `INFINITY` or
`-INFINITY`; a constant within the range is kept exact. -/
def atofFloat (s : List Char) : ℚ :=
  if floatOverflow ≤ atofDecimal s then floatInfinity
  else if atofDecimal s ≤ -floatOverflow then -floatInfinity
  else atofDecimal s

/-- A rational approximation of the square root (truncated to six decimals of the
numerator), to run `calcSensorStats` on rationals. -/
def sqrtApprox (x : ℚ) : ℚ :=
  mkRat ((Nat.sqrt (x.num.toNat * x.den * 10 ^ 12) : Nat) : Int) (x.den * 10 ^ 6)

/-- A line with the timestamp `t` followed by `n` readings `1` and the tokens of `last`. -/
def lineOfOnes (n : Nat) (last : List Char) : List Char :=
  't' :: (List.replicate n [' ', '1']).foldr (fun a b => a ++ b) (last ++ ['\n'])

/-- A line that starts with `first`, continues with `n` spaces and ends with `last`. -/
def paddedLine (first : List Char) (n : Nat) (last : List Char) : List Char :=
  first ++ List.replicate n ' ' ++ last

/-- The lines of a text file: each line ends with its newline, except possibly the
last one. -/
def textLines : List Char → List (List Char)
  | [] => []
  | c :: s =>
    if c = '\n' then [c] :: textLines s
    else
      match textLines s with
      | [] => [[c]]
      | l :: ls => (c :: l) :: ls

/-- A line made only of spaces, tabs, carriage returns and newlines. -/
def whitespaceOnly (line : List Char) : Bool :=
  line.all (fun c => c = ' ' ∨ c = '\t' ∨ c = '\r' ∨ c = '\n')

/-- The lines among `bufs` that the loop does not skip, as C strings, in order. -/
def nonBlankOf (bufs : List (List Char)) : List (List Char) :=
  (bufs.map cstr).filter (fun l => ¬ isSkipped l)

/-- The non-blank lines of the input, in order. -/
def nonBlankLines (inputFile : List Char) : List (List Char) :=
  nonBlankOf (fileLines inputFile)

/-- The timestamp token of a line: its first token. -/
def timestampToken (line : List Char) : List Char := (lineTokens line).headD []

/-- The reading tokens of a line: the tokens after the first. -/
def readingTokens (line : List Char) : List (List Char) := (lineTokens line).tail

/-- The readings of the given lines in ingestion order, each with the timestamp token of
its line. -/
def stampedReadings {V : Type} (atof : List Char → V) (lines : List (List Char)) :
    List (List Char × V) :=
  (lines.map (fun l => (readingTokens l).map (fun tok => (timestampToken l, atof tok)))).flatten

/-- The loop of `readSensorData` on lines that are not skipped, given as C strings. -/
def ingestNonBlank {V : Type} [LinearOrderedField V] (atof : List Char → V) :
    List (List Char) → State V → Except Abort (State V)
  | [], st => .ok st
  | l :: ls, st =>
    match processTokens atof (lineTokens l) st with
    | .error a => .error a
    | .ok st1 => ingestNonBlank atof ls st1

/-- The extremes held in `st` agree with the stamped readings `seen` ingested so far:
each extreme bounds every reading and stays on its side of its initial value; an extreme
that differs from its initial value carries the timestamp of its first occurrence, and one
that is equal to its initial value carries the initial timestamp. -/
structure ExtremesInv {V : Type} [LinearOrderedField V] (INFINITY : V)
    (seen : List (List Char × V)) (st : State V) : Prop where
  maxBound : ∀ p ∈ seen, p.2 ≤ st.maxReading
  maxLower : -INFINITY ≤ st.maxReading
  maxFirst : st.maxReading ≠ -INFINITY →
    seen.find? (fun p => decide (p.2 = st.maxReading)) = some (st.maxTimestamp, st.maxReading)
  maxInitial : st.maxReading = -INFINITY → st.maxTimestamp = [' ']
  minBound : ∀ p ∈ seen, st.minReading ≤ p.2
  minUpper : st.minReading ≤ INFINITY
  minFirst : st.minReading ≠ INFINITY →
    seen.find? (fun p => decide (p.2 = st.minReading)) = some (st.minTimestamp, st.minReading)
  minInitial : st.minReading = INFINITY → st.minTimestamp = [' ']

/-- The state of the loop after the non-blank lines `done` were ingested. -/
structure IngestInv {V : Type} [LinearOrderedField V] (atof : List Char → V) (INFINITY : V)
    (done : List (List Char)) (st : State V) : Prop where
  total : st.totalReadings = done.length
  expectedNil : done = [] → st.expectedSensorCount = -1
  expected : ∀ l ∈ done, st.expectedSensorCount = ((readingTokens l).length : Int)
  sensors : done ≠ [] → (st.numSensors : Int) = st.expectedSensorCount
  table : ∀ (j i : Nat), j < done.length → i < (readingTokens (done.getD j [])).length →
    st.allReadings i j = atof ((readingTokens (done.getD j [])).getD i [])
  extremes : ExtremesInv INFINITY (stampedReadings atof done) st
  valid : ∀ l ∈ done, ∀ tok ∈ readingTokens l, isValidSensorReading tok ≠ 0
  bounded : ∀ l ∈ done, (readingTokens l).length ≤ MAX_SENSORS
  stamps : ∀ l ∈ done, (timestampToken l).length + 1 ≤ BUFFER
  rows : ∀ l ∈ done, readingTokens l ≠ [] → done.length ≤ MAX_LINE_LENGTH

/-- A log whose first line has a timestamp of `BUFFER` characters and one reading, followed
by the line `last`. -/
def longStampLog (last : List Char) : List Char :=
  List.replicate BUFFER 'a' ++ [' ', '1', '\n'] ++ last

/-! ## The stores into the table of readings -/

/-- The state after one iteration of the inner loop of `readSensorData` that passes the
tests: the reading is stored in `allReadings[numSensors][totalReadings]`, the extremes are
updated and `numSensors` is incremented. -/
def storeReading {V : Type} [LinearOrderedField V] (atof : List Char → V)
    (token : List Char) (st : State V) : State V :=
  { st with
    allReadings := fun i j =>
      if i = st.numSensors ∧ j = st.totalReadings then atof token else st.allReadings i j
    maxReading := if atof token > st.maxReading then atof token
                  else st.maxReading
    maxTimestamp := if atof token > st.maxReading then st.timeStamp
                    else st.maxTimestamp
    minReading := if atof token < st.minReading then atof token
                  else st.minReading
    minTimestamp := if atof token < st.minReading then st.timeStamp
                    else st.minTimestamp
    numSensors := st.numSensors + 1 }

/-- The index pairs `(column, line)` of the stores `allReadings[numSensors][totalReadings]`
that the inner loop executes on the reading tokens of one line, in order. The store that
falls outside the table is listed too; the run is undefined from there on. -/
def readingsLoopStores {V : Type} [LinearOrderedField V] (atof : List Char → V) :
    List (List Char) → State V → List (Nat × Nat)
  | [], _ => []
  | token :: rest, st =>
    if st.numSensors ≥ MAX_SENSORS then []
    else if isValidSensorReading token = 0 then []
    else (st.numSensors, st.totalReadings) ::
      (if st.totalReadings ≥ MAX_LINE_LENGTH then []
       else readingsLoopStores atof rest (storeReading atof token st))

/-- The character of the decimal digit `n % 10`. -/
def digitChar (n : Nat) : Char := Char.ofNat (48 + n % 10)

/-- The decimal digits of `n`, most significant first, produced within `fuel` divisions. -/
def decimalDigits : Nat → Nat → List Char
  | 0, n => [digitChar n]
  | fuel + 1, n => if n < 10 then [digitChar n] else decimalDigits fuel (n / 10) ++ [digitChar n]

/-- The C library conversion `%d` of a non-negative integer. -/
def printfD (n : Nat) : List Char := decimalDigits n n

/-- Rounding of a non-negative rational to the nearest integer, ties to even: the
rounding of the C library conversions in the default rounding mode. -/
def roundHalfEven (q : ℚ) : Nat :=
  if q - (⌊q⌋.toNat : ℚ) < 1 / 2 then ⌊q⌋.toNat
  else if 1 / 2 < q - (⌊q⌋.toNat : ℚ) then ⌊q⌋.toNat + 1
  else if ⌊q⌋.toNat % 2 = 0 then ⌊q⌋.toNat
  else ⌊q⌋.toNat + 1

/-- The text of a value given by its sign and its number of hundredths: an optional `-`,
the digits of the integer part, `.`, and two digits. -/
def fixedTwo (negative : Bool) (hundredths : Nat) : List Char :=
  (if negative then ['-'] else []) ++ printfD (hundredths / 100)
    ++ ['.', digitChar (hundredths / 10), digitChar hundredths]

/-- The C library conversion `%.2f` of a finite value, in exact arithmetic. -/
def printfF2 (x : ℚ) : List Char :=
  fixedTwo (decide (x < 0)) (roundHalfEven ((if x < 0 then -x else x) * 100))

/-- The three lines that the loop of `printData` writes for sensor `i` (counted from 0). -/
def sensorLines (i : Nat) (mean std_dev : ℚ) : List (List Char) :=
  ["Sensor ".toList ++ printfD (i + 1) ++ ":\n".toList,
   "  - mean: ".toList ++ printfF2 mean ++ "\n".toList,
   "  - deviation: ".toList ++ printfF2 std_dev ++ "\n".toList]

/-- The loop of `printData` over the sensors `i, i + 1, ...` with the given statistics. -/
def sensorLinesFrom : Nat → List (ℚ × ℚ) → List (List Char)
  | _, [] => []
  | i, (mean, std_dev) :: rest => sensorLines i mean std_dev ++ sensorLinesFrom (i + 1) rest

/-- Source: `void printData(...)`, as the list of lines written to `outputFile`. The texts
`maxText` and `minText` stand for the `%g` conversions of the extremes. -/
def printData (maxText minText : List Char) (r : Report ℚ) : List (List Char) :=
  ["Maximum recorded at ".toList ++ r.maxTimestamp ++ " (".toList ++ maxText ++ ")\n".toList,
   "Minimum recorded at ".toList ++ r.minTimestamp ++ " (".toList ++ minText ++ ")\n\n".toList]
  ++ sensorLinesFrom 0 (r.stats.take r.sensorCount)

/-- The form of a value printed with two decimal places: an optional `-`, one or more
digits, `.`, two digits. -/
def FixedTwoForm (s : List Char) : Prop :=
  ∃ sg ds d1 d2, s = sg ++ ds ++ ['.', d1, d2] ∧ (sg = [] ∨ sg = ['-']) ∧ ds ≠ [] ∧
    (∀ c ∈ ds, isdigit c = true) ∧ isdigit d1 = true ∧ isdigit d2 = true

/-! ## Enhanced change machine (EnhancedChangeMachine.c) -/

/-- The value of a C `int` expression after wrap-around to 32 bits. -/
def int32 (x : Int) : Int := (x + 2147483648) % 4294967296 - 2147483648

/-- Source: `int values[] = {1000, 200, 25, 10, 1};` in `centsToBills`. -/
def values : List Int := [1000, 200, 25, 10, 1]

/-- The variables that the loop of `centsToBills` changes: the parameter `cents` and the
arrays `arr` and `inventory` of the caller. -/
structure ChangeState where
  cents : Int
  arr : Nat → Int
  inventory : Nat → Int

/-- The body of the loop `for (int i = 0; i < 5; i++)` of `centsToBills`. -/
def centsToBillsStep (i : Nat) (s : ChangeState) : ChangeState :=
  if Int.tdiv s.cents (values.getD i 0) ≤ s.inventory (i + 1) then
    { cents := int32 (s.cents - int32 (Int.tdiv s.cents (values.getD i 0) * values.getD i 0))
      arr := Function.update s.arr (i + 1) (Int.tdiv s.cents (values.getD i 0))
      inventory := Function.update s.inventory (i + 1)
        (int32 (s.inventory (i + 1) - Int.tdiv s.cents (values.getD i 0))) }
  else
    { cents := int32 (s.cents - int32 (s.inventory (i + 1) * values.getD i 0))
      arr := Function.update s.arr (i + 1) (s.inventory (i + 1))
      inventory := Function.update s.inventory (i + 1) 0 }

/-- Source: `int centsToBills(int cents, int arr[], int inventory[])`. The result holds
the returned leftover in `cents` and the arrays as the call leaves them. -/
def centsToBills (cents : Int) (arr inventory : Nat → Int) : ChangeState :=
  (List.range 5).foldl (fun s i => centsToBillsStep i s)
    { cents := cents, arr := arr, inventory := inventory }

/-- An inventory with the given counts of $10 bills, toonies, quarters, dimes and pennies
in the cells 1 to 5. -/
def inventoryOf (bills toonies quarters dimes pennies : Int) : Nat → Int :=
  fun k => [0, bills, toonies, quarters, dimes, pennies].getD k 0

/-! ## Falling-body simulation (AccelModel.c) -/

/-- Source: `#define DENSITY 1.204`. -/
def DENSITY : ℚ := 1204 / 1000

/-- Source: `#define GRAVITY 9.806`. -/
def GRAVITY : ℚ := 9806 / 1000

/-- Source: `#define CROSSAREA 0.0366`. -/
def CROSSAREA : ℚ := 366 / 10000

/-- Source: `#define DRAG 0.5`. -/
def DRAG : ℚ := 1 / 2

/-- Source: `#define MAX_ITERATIONS 2000`. -/
def MAX_ITERATIONS : Nat := 2000

/-- Source: `#define HALF 0.5`. -/
def HALF : ℚ := 1 / 2

/-- The calculation variables of `main` in AccelModel.c. -/
structure FallState where
  loop_count : Nat
  velocity : ℚ
  time_initial : ℚ
  height : ℚ

/-- The body of the calculation loop of `main`, up to the `printf` of the row. -/
def fallStep (mass time_interval : ℚ) (s : FallState) : FallState :=
  let drag_force := HALF * (CROSSAREA * DENSITY * DRAG * s.velocity * s.velocity)
  let accel := (mass * GRAVITY - drag_force) / mass
  let velocity := s.velocity + accel * time_interval
  let height := s.height
    - ((velocity * time_interval) + HALF * (accel * time_interval * time_interval))
  { loop_count := s.loop_count + 1
    velocity := if height ≤ 0 then 0 else velocity
    time_initial := s.time_initial + time_interval
    height := if height ≤ 0 then 0 else height }

/-- The row `(time, height, velocity)` that `main` prints for a state. -/
def fallRow (s : FallState) : ℚ × ℚ × ℚ := (s.time_initial, s.height, s.velocity)

/-- The rows printed by the loop `do ... while (height > 0 && loop_count < MAX_ITERATIONS)`;
the test on `loop_count` bounds the iterations by `MAX_ITERATIONS`. -/
def fallLoop (mass time_interval : ℚ) : Nat → FallState → List (ℚ × ℚ × ℚ)
  | 0, _ => []
  | fuel + 1, s =>
    fallRow (fallStep mass time_interval s) ::
      (if (fallStep mass time_interval s).height > 0 ∧
          (fallStep mass time_interval s).loop_count < MAX_ITERATIONS
       then fallLoop mass time_interval fuel (fallStep mass time_interval s)
       else [])

/-- The rows of the table printed by `main` of AccelModel.c for valid inputs: the initial
row and one row per iteration of the loop. -/
def fallTable (initial_height mass time_interval : ℚ) : List (ℚ × ℚ × ℚ) :=
  fallRow { loop_count := 0, velocity := 0, time_initial := 0, height := initial_height } ::
    fallLoop mass time_interval MAX_ITERATIONS
      { loop_count := 0, velocity := 0, time_initial := 0, height := initial_height }

/-! # Theorems -/

/-! ## The validator (C1) -/

theorem charAt_eq_headD (str : List Char) (i : Nat) : charAt str i = (str.drop i).headD NUL := by
  induction str generalizing i with
  | nil => simp [charAt]
  | cons c s ih =>
    cases i with
    | zero => simp [charAt]
    | succ n => simp [charAt]

theorem drop_succ_eq_tail (str : List Char) (i : Nat) : str.drop (i + 1) = (str.drop i).tail := by
  induction str generalizing i with
  | nil => simp
  | cons c s ih =>
    cases i with
    | zero => simp
    | succ n => simp

theorem isValidLoop_range (str : List Char) (fuel i : Nat) (hd he hdot : Bool) :
    isValidLoop str fuel i hd he hdot = 0 ∨ isValidLoop str fuel i hd he hdot = 1 := by
  induction fuel generalizing i hd he hdot with
  | zero => left; rfl
  | succ f ih =>
    unfold isValidLoop
    split_ifs <;> first | exact ih _ _ _ _ | (left; rfl) | (right; rfl)

/-- Facts about a digit character. -/
theorem isdigit_facts {c : Char} (h : isdigit c = true) :
    c ≠ NUL ∧ c ≠ '\n' ∧ c ≠ '.' ∧ c ≠ 'e' ∧ c ≠ 'E' ∧ c ≠ '+' ∧ c ≠ '-' := by
  refine ⟨?_, ?_, ?_, ?_, ?_, ?_, ?_⟩ <;> (intro e; subst e; revert h; decide)

/-- One unfolding of the loop at a position where the string has ended. -/
theorem isValidLoop_end (str : List Char) (f i : Nat) (hd he hdot : Bool)
    (h : str.drop i = []) :
    isValidLoop str (f + 1) i hd he hdot = if hd then 1 else 0 := by
  have hc : charAt str i = NUL := by rw [charAt_eq_headD, h]; rfl
  unfold isValidLoop
  simp [hc]

/-- The digits after the exponent marker: the loop accepts exactly runs of digits. -/
theorem isValidLoop_exp (str : List Char) (hnul : NUL ∉ str) (hnl : '\n' ∉ str)
    (fuel : Nat) : ∀ (i : Nat) (hdot : Bool), i ≤ str.length → str.length < i + fuel →
      (isValidLoop str fuel i true true hdot = 1 ↔ ∀ c ∈ str.drop i, isdigit c = true) := by
  induction fuel with
  | zero => intro i hdot h1 h2; omega
  | succ f ih =>
    intro i hdot h1 h2
    cases ht : str.drop i with
    | nil => rw [isValidLoop_end str f i _ _ _ ht]; simp
    | cons c t =>
      have hc : charAt str i = c := by rw [charAt_eq_headD, ht]; rfl
      have hmem : c ∈ str := List.mem_of_mem_drop (by rw [ht]; exact List.mem_cons_self c t)
      have hc0 : c ≠ NUL := fun e => hnul (e ▸ hmem)
      have hc1 : c ≠ '\n' := fun e => hnl (e ▸ hmem)
      have hlt : i < str.length := by
        by_contra hge
        have : str.drop i = [] := List.drop_eq_nil_of_le (by omega)
        rw [this] at ht; cases ht
      have ht1 : str.drop (i + 1) = t := by rw [drop_succ_eq_tail, ht]; rfl
      unfold isValidLoop
      rw [hc]
      by_cases hdg : isdigit c = true
      · have := ih (i + 1) hdot (by omega) (by omega)
        simp [hc0, hc1, hdg, this, ht1]
      · have hne : ¬ (∀ x ∈ c :: t, isdigit x = true) := fun hall => hdg (hall c (List.mem_cons_self c t))
        simp only [hne, iff_false]
        simp [hc0, hc1, hdg]

theorem bodyRest_nil (hd hdot : Bool) : BodyRest hd hdot [] ↔ hd = true := by
  constructor
  · rintro ⟨body, ex, he, -, -, hdig, -⟩
    have hb : body = [] := (List.append_eq_nil.mp he.symm).1
    subst hb
    rcases hdig with h | ⟨c, hc, -⟩
    · exact h
    · cases hc
  · intro h
    refine ⟨[], [], rfl, by simp, ?_, Or.inl h, Or.inl rfl⟩
    cases hdot <;> simp

theorem not_readingExponent_cons {c : Char} {t : List Char} (h1 : c ≠ 'e') (h2 : c ≠ 'E') :
    ¬ ReadingExponent (c :: t) := by
  rintro ⟨m, t1, he, hm, -⟩
  injection he with hm1 _
  subst hm1
  rcases hm with h | h
  · exact h1 h
  · exact h2 h

theorem bodyRest_cons_digit {c : Char} (hdg : isdigit c = true) (hd hdot : Bool) (t : List Char) :
    BodyRest hd hdot (c :: t) ↔ BodyRest true hdot t := by
  obtain ⟨-, -, hdot1, he1, he2, -, -⟩ := isdigit_facts hdg
  constructor
  · rintro ⟨body, ex, he, hall, hcnt, -, hex⟩
    cases body with
    | nil =>
      simp only [List.nil_append] at he
      subst he
      rcases hex with h | h
      · cases h
      · exact absurd h (not_readingExponent_cons he1 he2)
    | cons b body1 =>
      injection he with hb ht
      subst hb
      refine ⟨body1, ex, ht, fun x hx => hall x (List.mem_cons_of_mem _ hx), ?_, Or.inl rfl, hex⟩
      rw [List.count_cons_of_ne (Ne.symm hdot1)] at hcnt
      exact hcnt
  · rintro ⟨body, ex, he, hall, hcnt, -, hex⟩
    refine ⟨c :: body, ex, by rw [he]; rfl, ?_, ?_, Or.inr ⟨c, List.mem_cons_self _ _, hdg⟩, hex⟩
    · intro x hx
      rcases List.mem_cons.mp hx with h | h
      · exact Or.inl (h ▸ hdg)
      · exact hall x h
    · rw [List.count_cons_of_ne (Ne.symm hdot1)]
      exact hcnt

theorem bodyRest_cons_dot (hd hdot : Bool) (t : List Char) :
    BodyRest hd hdot ('.' :: t) ↔ hdot = false ∧ BodyRest hd true t := by
  have hnd : isdigit '.' = false := by decide
  constructor
  · rintro ⟨body, ex, he, hall, hcnt, hdig, hex⟩
    cases body with
    | nil =>
      simp only [List.nil_append] at he
      subst he
      rcases hex with h | h
      · cases h
      · exact absurd h (not_readingExponent_cons (by decide) (by decide))
    | cons b body1 =>
      injection he with hb ht
      subst hb
      rw [List.count_cons_self] at hcnt
      have hdot0 : hdot = false := by
        cases hdot
        · rfl
        · simp at hcnt
      refine ⟨hdot0, body1, ex, ht, fun x hx => hall x (List.mem_cons_of_mem _ hx), ?_, ?_, hex⟩
      · subst hdot0
        simpa using hcnt
      · rcases hdig with h | ⟨x, hx, hxd⟩
        · exact Or.inl h
        · rcases List.mem_cons.mp hx with h | h
          · subst h; rw [hnd] at hxd; cases hxd
          · exact Or.inr ⟨x, h, hxd⟩
  · rintro ⟨hdot0, body, ex, he, hall, hcnt, hdig, hex⟩
    subst hdot0
    refine ⟨'.' :: body, ex, by rw [he]; rfl, ?_, ?_, ?_, hex⟩
    · intro x hx
      rcases List.mem_cons.mp hx with h | h
      · exact Or.inr h
      · exact hall x h
    · rw [List.count_cons_self]
      simpa using hcnt
    · rcases hdig with h | ⟨x, hx, hxd⟩
      · exact Or.inl h
      · exact Or.inr ⟨x, List.mem_cons_of_mem _ hx, hxd⟩

theorem bodyRest_cons_exp {c : Char} (hc : c = 'e' ∨ c = 'E') (hd hdot : Bool) (t : List Char) :
    BodyRest hd hdot (c :: t) ↔ hd = true ∧ SignedDigits t := by
  have hnd : isdigit c = false := by rcases hc with h | h <;> subst h <;> decide
  have hndot : c ≠ '.' := by rcases hc with h | h <;> subst h <;> decide
  constructor
  · rintro ⟨body, ex, he, hall, -, hdig, hex⟩
    cases body with
    | nil =>
      simp only [List.nil_append] at he
      subst he
      rcases hex with h | ⟨m, t1, he, -, hsd⟩
      · cases h
      · injection he with _ ht
        subst ht
        rcases hdig with h | ⟨x, hx, -⟩
        · exact ⟨h, hsd⟩
        · cases hx
    | cons b body1 =>
      injection he with hb ht
      subst hb
      rcases hall c (List.mem_cons_self _ _) with h | h
      · rw [hnd] at h; cases h
      · exact absurd h hndot
  · rintro ⟨h, hsd⟩
    refine ⟨[], c :: t, rfl, by simp, ?_, Or.inl h, Or.inr ⟨c, t, rfl, hc, hsd⟩⟩
    cases hdot <;> simp

theorem bodyRest_cons_other {c : Char} (h1 : isdigit c = false) (h2 : c ≠ '.')
    (h3 : c ≠ 'e') (h4 : c ≠ 'E') (hd hdot : Bool) (t : List Char) :
    ¬ BodyRest hd hdot (c :: t) := by
  rintro ⟨body, ex, he, hall, -, -, hex⟩
  cases body with
  | nil =>
    simp only [List.nil_append] at he
    subst he
    rcases hex with h | h
    · cases h
    · exact not_readingExponent_cons h3 h4 h
  | cons b body1 =>
    injection he with hb ht
    subst hb
    rcases hall c (List.mem_cons_self _ _) with h | h
    · rw [h1] at h; cases h
    · exact h2 h

theorem isdigit_NUL : isdigit NUL = false := by decide

theorem signedDigits_iff (t : List Char) :
    SignedDigits t ↔
      isdigit ((if t.headD NUL = '+' ∨ t.headD NUL = '-' then t.tail else t).headD NUL) = true ∧
      ∀ x ∈ (if t.headD NUL = '+' ∨ t.headD NUL = '-' then t.tail else t).tail,
        isdigit x = true := by
  cases t with
  | nil =>
    have h0 : ¬ (NUL = '+' ∨ NUL = '-') := by decide
    simp only [List.headD_nil, h0, if_false, isdigit_NUL]
    constructor
    · rintro ⟨sg, ds, he, -, hne, -⟩
      exact absurd (List.append_eq_nil.mp he.symm).2 hne
    · rintro ⟨h, -⟩
      cases h
  | cons s r =>
    simp only [List.headD_cons, List.tail_cons]
    by_cases hs : s = '+' ∨ s = '-'
    · have hsd : isdigit s = false := by rcases hs with h | h <;> subst h <;> decide
      rw [if_pos hs]
      constructor
      · rintro ⟨sg, ds, he, hsg, hne, hall⟩
        rcases hsg with h | h | h
        · subst h
          simp only [List.nil_append] at he
          subst he
          have := hall s (List.mem_cons_self _ _)
          rw [hsd] at this; cases this
        all_goals
          subst h
          injection he with _ hr
          subst hr
          cases r with
          | nil => exact absurd rfl hne
          | cons d ds1 =>
            exact ⟨hall d (List.mem_cons_self _ _), fun x hx => hall x (List.mem_cons_of_mem _ hx)⟩
      · rintro ⟨h1, h2⟩
        cases r with
        | nil => rw [List.headD_nil, isdigit_NUL] at h1; cases h1
        | cons d r1 =>
          refine ⟨[s], d :: r1, rfl, ?_, by simp, ?_⟩
          · rcases hs with h | h
            · exact Or.inr (Or.inl (by rw [h]))
            · exact Or.inr (Or.inr (by rw [h]))
          · intro x hx
            rcases List.mem_cons.mp hx with h | h
            · subst h; exact h1
            · exact h2 x h
    · rw [if_neg hs]
      simp only [List.headD_cons, List.tail_cons]
      constructor
      · rintro ⟨sg, ds, he, hsg, hne, hall⟩
        rcases hsg with h | h | h
        · subst h
          simp only [List.nil_append] at he
          subst he
          exact ⟨hall s (List.mem_cons_self _ _), fun x hx => hall x (List.mem_cons_of_mem _ hx)⟩
        · subst h
          injection he with h1 _
          exact absurd (Or.inl h1) hs
        · subst h
          injection he with h1 _
          exact absurd (Or.inr h1) hs
      · rintro ⟨h1, h2⟩
        refine ⟨[], s :: r, rfl, Or.inl rfl, by simp, ?_⟩
        intro x hx
        rcases List.mem_cons.mp hx with h | h
        · subst h; exact h1
        · exact h2 x h

/-- The body phase of the loop accepts exactly the rest of a body with an optional exponent. -/
theorem isValidLoop_body (str : List Char) (hnul : NUL ∉ str) (hnl : '\n' ∉ str)
    (fuel : Nat) : ∀ (i : Nat) (hd hdot : Bool), i ≤ str.length → str.length < i + fuel →
      (isValidLoop str fuel i hd false hdot = 1 ↔ BodyRest hd hdot (str.drop i)) := by
  induction fuel with
  | zero => intro i hd hdot h1 h2; omega
  | succ f ih =>
    intro i hd hdot h1 h2
    cases ht : str.drop i with
    | nil =>
      rw [isValidLoop_end str f i _ _ _ ht, bodyRest_nil]
      cases hd <;> simp
    | cons c t =>
      have hc : charAt str i = c := by rw [charAt_eq_headD, ht]; rfl
      have hmem : c ∈ str := List.mem_of_mem_drop (by rw [ht]; exact List.mem_cons_self c t)
      have hc0 : c ≠ NUL := fun e => hnul (e ▸ hmem)
      have hc1 : c ≠ '\n' := fun e => hnl (e ▸ hmem)
      have hlt : i < str.length := by
        by_contra hge
        have : str.drop i = [] := List.drop_eq_nil_of_le (by omega)
        rw [this] at ht; cases ht
      have ht1 : str.drop (i + 1) = t := by rw [drop_succ_eq_tail, ht]; rfl
      unfold isValidLoop
      rw [hc]
      by_cases hdg : isdigit c = true
      · have := ih (i + 1) true hdot (by omega) (by omega)
        rw [bodyRest_cons_digit hdg, ← ht1, ← this]
        simp [hc0, hc1, hdg]
      · have hdg0 : isdigit c = false := by simpa using hdg
        by_cases hdt : c = '.'
        · subst hdt
          rw [bodyRest_cons_dot]
          cases hdot
          · have := ih (i + 1) hd true (by omega) (by omega)
            rw [← ht1, ← this]
            simp [hc0, hc1, hdg0]
          · simp [hc0, hc1, hdg0]
        · by_cases hee : c = 'e' ∨ c = 'E'
          · rw [bodyRest_cons_exp hee, signedDigits_iff]
            have hs1 : charAt str (i + 1) = t.headD NUL := by rw [charAt_eq_headD, ht1]
            have hj : str.drop (if charAt str (i + 1) = '+' ∨ charAt str (i + 1) = '-' then i + 2
                else i + 1) = (if t.headD NUL = '+' ∨ t.headD NUL = '-' then t.tail else t) := by
              rw [hs1]
              split_ifs
              · rw [drop_succ_eq_tail, ht1]
              · exact ht1
            have hji : i + 1 ≤ (if charAt str (i + 1) = '+' ∨ charAt str (i + 1) = '-' then i + 2
                else i + 1) := by split_ifs <;> omega
            generalize (if charAt str (i + 1) = '+' ∨ charAt str (i + 1) = '-' then i + 2
                else i + 1) = j at hj hji
            generalize (if t.headD NUL = '+' ∨ t.headD NUL = '-' then t.tail else t) = u at hj
            have hcj : charAt str j = u.headD NUL := by rw [charAt_eq_headD, hj]
            rw [hcj]
            cases hd
            · simp [hc0, hc1, hdg0, hdt, hee]
            · by_cases hud : isdigit (u.headD NUL) = true
              · have hjlt : j < str.length := by
                  by_contra hge
                  have : str.drop j = [] := List.drop_eq_nil_of_le (by omega)
                  rw [this] at hj
                  rw [← hj, List.headD_nil, isdigit_NUL] at hud
                  cases hud
                have hfj : str.length < (j + 1) + f := by omega
                have := isValidLoop_exp str hnul hnl f (j + 1) hdot (by omega) hfj
                rw [drop_succ_eq_tail, hj] at this
                simp only [List.headD_eq_head?_getD] at hud
                simp [hc0, hc1, hdg0, hdt, hee, hud, this]
              · simp only [List.headD_eq_head?_getD, Bool.not_eq_true] at hud
                simp [hc0, hc1, hdg0, hdt, hee, hud]
          · have hne : c ≠ 'e' ∧ c ≠ 'E' := by
              constructor
              · exact fun e => hee (Or.inl e)
              · exact fun e => hee (Or.inr e)
            have := bodyRest_cons_other hdg0 hdt hne.1 hne.2 hd hdot t
            simp [hc0, hc1, hdg0, hdt, hne.1, hne.2, this]

theorem readingForm_iff_bodyRest (s : List Char) :
    ReadingForm s ↔
      BodyRest false false (if s.headD NUL = '+' ∨ s.headD NUL = '-' then s.tail else s) := by
  constructor
  · rintro ⟨sg, body, ex, hs, hsg, ⟨hall, hcnt, hdig⟩, hex⟩
    have hbr : BodyRest false false (body ++ ex) :=
      ⟨body, ex, rfl, hall, by simpa using hcnt, Or.inr hdig, hex⟩
    rcases hsg with h | h | h
    · subst h
      simp only [List.nil_append] at hs
      obtain ⟨x, hx, -⟩ := hdig
      cases body with
      | nil => cases hx
      | cons b body1 =>
        have hb : ¬ (b = '+' ∨ b = '-') := by
          rcases hall b (List.mem_cons_self _ _) with hb | hb
          · obtain ⟨-, -, -, -, -, h5, h6⟩ := isdigit_facts hb
            exact fun e => e.elim h5 h6
          · subst hb; decide
        subst hs
        simp only [List.cons_append, List.headD_cons, if_neg hb]
        exact hbr
    · subst h; subst hs
      simpa using hbr
    · subst h; subst hs
      simpa using hbr
  · intro h
    by_cases hc : s.headD NUL = '+' ∨ s.headD NUL = '-'
    · rw [if_pos hc] at h
      cases s with
      | nil => exact absurd hc (by decide)
      | cons c t =>
        simp only [List.headD_cons] at hc
        simp only [List.tail_cons] at h
        obtain ⟨body, ex, ht, hall, hcnt, hdig, hex⟩ := h
        refine ⟨[c], body, ex, by rw [ht]; rfl, ?_, ⟨hall, by simpa using hcnt, ?_⟩, hex⟩
        · rcases hc with e | e
          · exact Or.inr (Or.inl (by rw [e]))
          · exact Or.inr (Or.inr (by rw [e]))
        · rcases hdig with e | e
          · cases e
          · exact e
    · rw [if_neg hc] at h
      obtain ⟨body, ex, ht, hall, hcnt, hdig, hex⟩ := h
      refine ⟨[], body, ex, by rw [ht]; rfl, Or.inl rfl, ⟨hall, by simpa using hcnt, ?_⟩, hex⟩
      rcases hdig with e | e
      · cases e
      · exact e

theorem isValidSensorReading_eq_one_iff (s : List Char) (hnl : '\n' ∉ s) (hnul : NUL ∉ s) :
    isValidSensorReading s = 1 ↔ ReadingForm s := by
  rw [readingForm_iff_bodyRest]
  unfold isValidSensorReading
  have h0 : charAt s 0 = s.headD NUL := by rw [charAt_eq_headD]; rfl
  rw [h0]
  by_cases hc : s.headD NUL = '+' ∨ s.headD NUL = '-'
  · rw [if_pos hc, if_pos hc]
    have hlen : 1 ≤ s.length := by
      cases s with
      | nil => exact absurd hc (by decide)
      | cons c t => simp
    have := isValidLoop_body s hnul hnl (s.length + 1) 1 false false hlen (by omega)
    rw [this]
    cases s with
    | nil => rfl
    | cons c t => rfl
  · rw [if_neg hc, if_neg hc]
    have := isValidLoop_body s hnul hnl (s.length + 1) 0 false false (by omega) (by omega)
    rw [this]
    rfl

/-- C1: for a string without newline (a C string, so without NUL), `isValidSensorReading`
returns 1 exactly when the string is an optional sign, a body of digits with at most one
`.` and at least one digit, and an optional exponent (`e` or `E`, optional sign, one or
more digits); it returns 0 for every other string. It accepts "3.14", "1e10", "-2.5e-3",
"-3.14", "2.5e-10", "100" and rejects "1.2.3", "abc", "1e", "." and "". -/
theorem isValidSensorReading_accepts_exactly_readingForm :
    (∀ s : List Char, '\n' ∉ s → NUL ∉ s →
      (isValidSensorReading s = 1 ↔ ReadingForm s) ∧
      (¬ ReadingForm s → isValidSensorReading s = 0)) ∧
    isValidSensorReading "3.14".toList = 1 ∧
    isValidSensorReading "1e10".toList = 1 ∧
    isValidSensorReading "-2.5e-3".toList = 1 ∧
    isValidSensorReading "-3.14".toList = 1 ∧
    isValidSensorReading "2.5e-10".toList = 1 ∧
    isValidSensorReading "100".toList = 1 ∧
    isValidSensorReading "1.2.3".toList = 0 ∧
    isValidSensorReading "abc".toList = 0 ∧
    isValidSensorReading "1e".toList = 0 ∧
    isValidSensorReading ".".toList = 0 ∧
    isValidSensorReading "".toList = 0 := by
  refine ⟨?_, by decide, by decide, by decide, by decide, by decide, by decide, by decide,
    by decide, by decide, by decide, by decide⟩
  intro s hnl hnul
  have hiff := isValidSensorReading_eq_one_iff s hnl hnul
  refine ⟨hiff, fun hnot => ?_⟩
  rcases isValidLoop_range s (s.length + 1)
      (if charAt s 0 = '+' ∨ charAt s 0 = '-' then 1 else 0) false false false with h | h
  · exact h
  · exact absurd (hiff.mp h) hnot

theorem isValidSensorReading_accepts_exactly_readingForm_witness :
    '\n' ∉ "-2.5e-3".toList ∧ NUL ∉ "-2.5e-3".toList ∧
    (isValidSensorReading "-2.5e-3".toList = 1 ↔ ReadingForm "-2.5e-3".toList) ∧
    ReadingForm "-2.5e-3".toList :=
  ⟨by decide, by decide,
   (isValidSensorReading_accepts_exactly_readingForm.1 _ (by decide) (by decide)).1,
   ((isValidSensorReading_accepts_exactly_readingForm.1 _ (by decide) (by decide)).1).mp
     (by decide)⟩

/-! ## The fuel of the loops is enough -/

/-- The validator loop does not depend on the fuel once it exceeds the characters left:
the loop ends within `str.length + 1 - i` iterations. -/
theorem isValidLoop_fuel (str : List Char) (fuel1 : Nat) :
    ∀ (fuel2 i : Nat) (hd he hdot : Bool), i ≤ str.length →
      str.length < i + fuel1 → str.length < i + fuel2 →
      isValidLoop str fuel1 i hd he hdot = isValidLoop str fuel2 i hd he hdot := by
  induction fuel1 with
  | zero => intro fuel2 i hd he hdot h0 h1 h2; omega
  | succ f1 ih =>
    intro fuel2 i hd he hdot h0 h1 h2
    cases fuel2 with
    | zero => omega
    | succ f2 =>
      have hin : ∀ k, isdigit (charAt str k) = true → k < str.length := by
        intro k hk
        by_contra hge
        have : charAt str k = NUL := by
          unfold charAt
          rw [List.getD_eq_getElem?_getD, List.getElem?_eq_none (by omega)]
          rfl
        rw [this, isdigit_NUL] at hk
        cases hk
      unfold isValidLoop
      by_cases hc : charAt str i ≠ NUL ∧ charAt str i ≠ '\n'
      · have hlt : i < str.length := by
          by_contra hge
          apply hc.1
          unfold charAt
          rw [List.getD_eq_getElem?_getD, List.getElem?_eq_none (by omega)]
          rfl
        rw [if_pos hc, if_pos hc]
        by_cases hdg : isdigit (charAt str i) = true
        · rw [if_pos hdg, if_pos hdg]
          exact ih f2 (i + 1) true he hdot (by omega) (by omega) (by omega)
        · rw [if_neg hdg, if_neg hdg]
          by_cases hdt : charAt str i = '.'
          · rw [if_pos hdt, if_pos hdt]
            by_cases hf : (hdot = true ∨ he = true)
            · rw [if_pos hf, if_pos hf]
            · rw [if_neg hf, if_neg hf]
              exact ih f2 (i + 1) hd he true (by omega) (by omega) (by omega)
          · rw [if_neg hdt, if_neg hdt]
            by_cases hee : charAt str i = 'e' ∨ charAt str i = 'E'
            · rw [if_pos hee, if_pos hee]
              by_cases hf : (he = true ∨ ¬ hd = true)
              · rw [if_pos hf, if_pos hf]
              · rw [if_neg hf, if_neg hf]
                have hji : i + 1 ≤ (if charAt str (i + 1) = '+' ∨ charAt str (i + 1) = '-'
                    then i + 2 else i + 1) := by split_ifs <;> omega
                generalize (if charAt str (i + 1) = '+' ∨ charAt str (i + 1) = '-'
                    then i + 2 else i + 1) = j at hji
                by_cases hjd : isdigit (charAt str j) = true
                · have := hin j hjd
                  rw [if_neg (by simp [hjd]), if_neg (by simp [hjd])]
                  exact ih f2 (j + 1) hd true hdot (by omega) (by omega) (by omega)
                · rw [if_pos hjd, if_pos hjd]
            · rw [if_neg hee, if_neg hee]
      · rw [if_neg hc, if_neg hc]

theorem dropWhile_head_false {α : Type} (p : α → Bool) :
    ∀ (s : List α) (c : α) (r : List α), s.dropWhile p = c :: r → p c = false := by
  intro s
  induction s with
  | nil => intro c r h; cases h
  | cons a t ih =>
    intro c r h
    by_cases ha : p a = true
    · rw [List.dropWhile_cons_of_pos ha] at h
      exact ih c r h
    · rw [List.dropWhile_cons_of_neg ha] at h
      injection h with h1 _
      subst h1
      simpa using ha

theorem strtok_saved_length (delim s token saved : List Char)
    (h : strtok delim s = some (token, saved)) : saved.length < s.length := by
  unfold strtok at h
  have hd := (List.dropWhile_sublist (fun c => delim.contains c) (l := s)).length_le
  cases hs : s.dropWhile (fun c => delim.contains c) with
  | nil => rw [hs] at h; cases h
  | cons c r =>
    rw [hs] at h hd
    simp only [Option.some.injEq, Prod.mk.injEq] at h
    obtain ⟨-, h2⟩ := h
    have hc : ¬ (delim.contains c = true) := by
      have := dropWhile_head_false (fun c => delim.contains c) s c r hs
      simp only [this]
      exact Bool.false_ne_true
    have hr : (List.dropWhile (fun d => decide ¬ delim.contains d = true) (c :: r)).length
        ≤ r.length := by
      rw [List.dropWhile_cons_of_pos (by simpa using hc)]
      exact (List.dropWhile_sublist _).length_le
    rw [← h2, List.length_drop]
    simp only [List.length_cons] at hd
    omega

/-- The tokens do not depend on the fuel once it reaches the length of the string: the
fuel `line.length` of `lineTokens` is enough to reach the NULL result of `strtok`. -/
theorem strtokAll_fuel (delim : List Char) (n : Nat) :
    ∀ (s : List Char) (fuel1 fuel2 : Nat), s.length ≤ n → n ≤ fuel1 → n ≤ fuel2 →
      strtokAll delim fuel1 s = strtokAll delim fuel2 s := by
  induction n with
  | zero =>
    intro s fuel1 fuel2 h0 _ _
    have hs : s = [] := List.length_eq_zero.mp (by omega)
    subst hs
    cases fuel1 <;> cases fuel2 <;> simp [strtokAll, strtok]
  | succ k ih =>
    intro s fuel1 fuel2 h0 h1 h2
    obtain ⟨f1, rfl⟩ : ∃ f1, fuel1 = f1 + 1 := ⟨fuel1 - 1, by omega⟩
    obtain ⟨f2, rfl⟩ : ∃ f2, fuel2 = f2 + 1 := ⟨fuel2 - 1, by omega⟩
    unfold strtokAll
    cases hst : strtok delim s with
    | none => rfl
    | some p =>
      obtain ⟨token, saved⟩ := p
      have := strtok_saved_length delim s token saved hst
      simp only
      rw [ih saved f1 f2 (by omega) (by omega) (by omega)]

theorem fgetsChars_rest_length (k : Nat) :
    ∀ (s : List Char), 0 < k → s ≠ [] → (fgetsChars k s).2.length < s.length := by
  induction k with
  | zero => intro s h; omega
  | succ j ih =>
    intro s _ hs
    cases s with
    | nil => exact absurd rfl hs
    | cons c t =>
      unfold fgetsChars
      by_cases hc : c = '\n'
      · simp [hc]
      · rw [if_neg hc]
        simp only [List.length_cons]
        by_cases hj : 0 < j
        · by_cases ht : t = []
          · subst ht
            cases j <;> simp [fgetsChars]
          · have := ih t hj ht
            omega
        · have : j = 0 := by omega
          subst this
          simp [fgetsChars]

/-- The lines read do not depend on the fuel once it reaches the length of the stream:
the fuel of `fileLines` is enough to reach the end of the file. -/
theorem fgetsLines_fuel (n : Nat) (hn : 2 ≤ n) (m : Nat) :
    ∀ (s : List Char) (fuel1 fuel2 : Nat), s.length ≤ m → m ≤ fuel1 → m ≤ fuel2 →
      fgetsLines n fuel1 s = fgetsLines n fuel2 s := by
  induction m with
  | zero =>
    intro s fuel1 fuel2 h0 _ _
    have hs : s = [] := List.length_eq_zero.mp (by omega)
    subst hs
    cases fuel1 <;> cases fuel2 <;> simp [fgetsLines, fgets]
  | succ k ih =>
    intro s fuel1 fuel2 h0 h1 h2
    obtain ⟨f1, rfl⟩ : ∃ f1, fuel1 = f1 + 1 := ⟨fuel1 - 1, by omega⟩
    obtain ⟨f2, rfl⟩ : ∃ f2, fuel2 = f2 + 1 := ⟨fuel2 - 1, by omega⟩
    unfold fgetsLines fgets
    by_cases hs : s = []
    · simp [hs]
    · rw [if_neg hs]
      have := fgetsChars_rest_length (n - 1) s (by omega) hs
      simp only
      rw [ih _ f1 f2 (by omega) (by omega) (by omega)]

theorem textLines_eq_nil (s : List Char) : textLines s = [] ↔ s = [] := by
  constructor
  · intro h
    cases s with
    | nil => rfl
    | cons c t =>
      unfold textLines at h
      split_ifs at h
      split at h <;> cases h
  · intro h; subst h; rfl

/-- One `fgets` call with room for the first line of the stream stores that line and
leaves the stream at the start of the next line. -/
theorem fgetsChars_textLines :
    ∀ (s : List Char) (k : Nat) (l : List Char) (ls : List (List Char)),
      textLines s = l :: ls → l.length ≤ k →
      ∃ rest, fgetsChars k s = (l, rest) ∧ textLines rest = ls ∧ s = l ++ rest ∧ l ≠ [] := by
  intro s
  induction s with
  | nil => intro k l ls h; cases h
  | cons c t ih =>
    intro k l ls h hk
    unfold textLines at h
    by_cases hc : c = '\n'
    · rw [if_pos hc] at h
      injection h with h1 h2
      subst h1
      obtain ⟨j, rfl⟩ : ∃ j, k = j + 1 := ⟨k - 1, by simp at hk; omega⟩
      refine ⟨t, ?_, h2, rfl, by simp⟩
      unfold fgetsChars
      rw [if_pos hc]
    · rw [if_neg hc] at h
      cases ht : textLines t with
      | nil =>
        rw [ht] at h
        injection h with h1 h2
        subst h1
        have htn : t = [] := (textLines_eq_nil t).mp ht
        subst htn
        obtain ⟨j, rfl⟩ : ∃ j, k = j + 1 := ⟨k - 1, by simp at hk; omega⟩
        refine ⟨[], ?_, ?_, rfl, by simp⟩
        · unfold fgetsChars
          rw [if_neg hc]
          cases j <;> rfl
        · rw [← h2]; rfl
      | cons l1 ls1 =>
        rw [ht] at h
        injection h with h1 h2
        subst h1
        subst h2
        simp only [List.length_cons] at hk
        obtain ⟨j, rfl⟩ : ∃ j, k = j + 1 := ⟨k - 1, by omega⟩
        obtain ⟨rest, e1, e2, e3, -⟩ := ih j l1 ls1 ht (by omega)
        refine ⟨rest, ?_, e2, by rw [e3]; rfl, by simp⟩
        unfold fgetsChars
        rw [if_neg hc, e1]

/-- The `fgets` calls return the leading lines of the file one by one as long as they fit
the buffer. -/
theorem fgetsLines_leading_textLines (n : Nat) :
    ∀ (pre post : List (List Char)) (s : List Char) (fuel : Nat), s.length ≤ fuel →
      textLines s = pre ++ post → (∀ l ∈ pre, l.length < n) →
      ∃ rest, fgetsLines n fuel s = pre ++ rest ∧ (post = [] → rest = []) := by
  intro pre
  induction pre with
  | nil =>
    intro post s fuel hf h _
    refine ⟨fgetsLines n fuel s, rfl, ?_⟩
    intro hp
    subst hp
    have hs : s = [] := (textLines_eq_nil s).mp h
    subst hs
    cases fuel <;> simp [fgetsLines, fgets]
  | cons l pre ih =>
    intro post s fuel hf h hfit
    have hl := hfit l (List.mem_cons_self _ _)
    obtain ⟨rest, e1, e2, e3, e4⟩ := fgetsChars_textLines s (n - 1) l (pre ++ post) h (by omega)
    have hs : s ≠ [] := by
      intro e
      rw [e] at e3
      have := congrArg List.length e3
      simp only [List.length_nil, List.length_append] at this
      have := List.length_pos.mpr e4
      omega
    have hlen : s.length = l.length + rest.length := by rw [e3, List.length_append]
    have hlpos := List.length_pos.mpr e4
    obtain ⟨f, rfl⟩ : ∃ f, fuel = f + 1 := ⟨fuel - 1, by omega⟩
    obtain ⟨rest1, r1, r2⟩ := ih post rest f (by omega) e2
      (fun x hx => hfit x (List.mem_cons_of_mem _ hx))
    refine ⟨rest1, ?_, r2⟩
    unfold fgetsLines fgets
    rw [if_neg hs, e1]
    simp only
    rw [r1]
    rfl

/-- When every line of the file fits the line buffer, the loop reads the lines of the
file. -/
theorem fileLines_eq_textLines (inputFile : List Char)
    (h : ∀ l ∈ textLines inputFile, l.length < MAX_LINE_LENGTH) :
    fileLines inputFile = textLines inputFile := by
  obtain ⟨rest, e1, e2⟩ := fgetsLines_leading_textLines MAX_LINE_LENGTH (textLines inputFile) []
    inputFile inputFile.length (le_refl _) (by rw [List.append_nil]) h
  unfold fileLines
  rw [e1, e2 rfl, List.append_nil]

/-- The loop reads the leading lines of the file as they are, as long as they fit the line
buffer. -/
theorem fileLines_leading_textLines (inputFile : List Char) (pre post : List (List Char))
    (hsplit : textLines inputFile = pre ++ post)
    (h : ∀ l ∈ pre, l.length < MAX_LINE_LENGTH) :
    ∃ rest, fileLines inputFile = pre ++ rest := by
  obtain ⟨rest, e1, -⟩ := fgetsLines_leading_textLines MAX_LINE_LENGTH pre post
    inputFile inputFile.length (le_refl _) hsplit h
  exact ⟨rest, e1⟩

theorem processLine_skipped {V : Type} [LinearOrderedField V] (atof : List Char → V)
    (buf : List Char) (st : State V) (h : isSkipped (cstr buf) = true) :
    processLine atof buf st = .ok st := by
  simp [processLine, h]

theorem ingestLines_eq_ingestNonBlank {V : Type} [LinearOrderedField V] (atof : List Char → V)
    (bufs : List (List Char)) (st : State V) :
    ingestLines atof bufs st = ingestNonBlank atof (nonBlankOf bufs) st := by
  induction bufs generalizing st with
  | nil => rfl
  | cons b bs ih =>
    by_cases h : isSkipped (cstr b) = true
    · have : nonBlankOf (b :: bs) = nonBlankOf bs := by
        simp [nonBlankOf, List.filter, h]
      rw [this]
      simp only [ingestLines, processLine_skipped atof b st h]
      exact ih st
    · have h0 : isSkipped (cstr b) = false := by simpa using h
      have : nonBlankOf (b :: bs) = cstr b :: nonBlankOf bs := by
        simp [nonBlankOf, List.filter, h0]
      rw [this]
      simp only [ingestLines, ingestNonBlank, processLine, h0]
      cases hp : processTokens atof (lineTokens (cstr b)) st with
      | error a => simp
      | ok st1 => simpa using ih st1

theorem ingestNonBlank_append {V : Type} [LinearOrderedField V] (atof : List Char → V)
    (ls1 ls2 : List (List Char)) (st : State V) :
    ingestNonBlank atof (ls1 ++ ls2) st =
      match ingestNonBlank atof ls1 st with
      | .error a => .error a
      | .ok st1 => ingestNonBlank atof ls2 st1 := by
  induction ls1 generalizing st with
  | nil => rfl
  | cons l ls ih =>
    simp only [List.cons_append, ingestNonBlank]
    cases hp : processTokens atof (lineTokens l) st with
    | error a => rfl
    | ok st1 => exact ih st1

theorem extremes_step {V : Type} [LinearOrderedField V] {INFINITY : V}
    (seen : List (List Char × V))
    (st st1 : State V) (ts : List Char) (x : V) (h : ExtremesInv INFINITY seen st)
    (h1 : st1.maxReading = if x > st.maxReading then x else st.maxReading)
    (h2 : st1.maxTimestamp = if x > st.maxReading then ts else st.maxTimestamp)
    (h3 : st1.minReading = if x < st.minReading then x else st.minReading)
    (h4 : st1.minTimestamp = if x < st.minReading then ts else st.minTimestamp) :
    ExtremesInv INFINITY (seen ++ [(ts, x)]) st1 := by
  constructor
  · intro p hp
    rw [h1]
    rcases List.mem_append.mp hp with hp | hp
    · have := h.maxBound p hp
      split_ifs with hx
      · exact le_trans this (le_of_lt hx)
      · exact this
    · have hp1 : p = (ts, x) := by simpa using hp
      subst hp1
      split_ifs with hx
      · exact le_refl _
      · exact not_lt.mp hx
  · rw [h1]
    split_ifs with hx
    · exact le_trans h.maxLower (le_of_lt hx)
    · exact h.maxLower
  · intro hne
    rw [h1] at hne
    rw [h1, h2, List.find?_append]
    by_cases hx : x > st.maxReading
    · rw [if_pos hx, if_pos hx]
      have hnone : seen.find? (fun p => decide (p.2 = x)) = none := by
        rw [List.find?_eq_none]
        intro p hp hpx
        have hpx1 : p.2 = x := by simpa using hpx
        have := h.maxBound p hp
        rw [hpx1] at this
        exact absurd hx (not_lt.mpr this)
      rw [hnone]
      simp
    · rw [if_neg hx] at hne
      rw [if_neg hx, if_neg hx, h.maxFirst hne]
      rfl
  · intro he
    rw [h1] at he
    rw [h2]
    by_cases hx : x > st.maxReading
    · rw [if_pos hx] at he
      rw [he] at hx
      exact absurd h.maxLower (not_le.mpr hx)
    · rw [if_neg hx] at he
      rw [if_neg hx]
      exact h.maxInitial he
  · intro p hp
    rw [h3]
    rcases List.mem_append.mp hp with hp | hp
    · have := h.minBound p hp
      split_ifs with hx
      · exact le_trans (le_of_lt hx) this
      · exact this
    · have hp1 : p = (ts, x) := by simpa using hp
      subst hp1
      split_ifs with hx
      · exact le_refl _
      · exact not_lt.mp hx
  · rw [h3]
    split_ifs with hx
    · exact le_trans (le_of_lt hx) h.minUpper
    · exact h.minUpper
  · intro hne
    rw [h3] at hne
    rw [h3, h4, List.find?_append]
    by_cases hx : x < st.minReading
    · rw [if_pos hx, if_pos hx]
      have hnone : seen.find? (fun p => decide (p.2 = x)) = none := by
        rw [List.find?_eq_none]
        intro p hp hpx
        have hpx1 : p.2 = x := by simpa using hpx
        have := h.minBound p hp
        rw [hpx1] at this
        exact absurd hx (not_lt.mpr this)
      rw [hnone]
      simp
    · rw [if_neg hx] at hne
      rw [if_neg hx, if_neg hx, h.minFirst hne]
      rfl
  · intro he
    rw [h3] at he
    rw [h4]
    by_cases hx : x < st.minReading
    · rw [if_pos hx] at he
      rw [he] at hx
      exact absurd h.minUpper (not_le.mpr hx)
    · rw [if_neg hx] at he
      rw [if_neg hx]
      exact h.minInitial he

/-- One iteration of the inner loop that passes the three tests. -/
theorem readingsLoop_cons_ok {V : Type} [LinearOrderedField V] (atof : List Char → V)
    (token : List Char) (rest : List (List Char)) (st : State V)
    (h1 : st.numSensors < MAX_SENSORS) (h2 : isValidSensorReading token ≠ 0)
    (h3 : st.totalReadings < MAX_LINE_LENGTH) :
    readingsLoop atof (token :: rest) st =
      readingsLoop atof rest
        { st with
          allReadings := fun i j =>
            if i = st.numSensors ∧ j = st.totalReadings then atof token else st.allReadings i j
          maxReading := if atof token > st.maxReading then atof token
                        else st.maxReading
          maxTimestamp := if atof token > st.maxReading then st.timeStamp
                          else st.maxTimestamp
          minReading := if atof token < st.minReading then atof token
                        else st.minReading
          minTimestamp := if atof token < st.minReading then st.timeStamp
                          else st.minTimestamp
          numSensors := st.numSensors + 1 } := by
  rw [readingsLoop]
  rw [if_neg (by omega), if_neg h2, if_neg (by omega)]

/-- What a successful run of the inner loop over `toks` does to the state. -/
theorem readingsLoop_ok {V : Type} [LinearOrderedField V] (atof : List Char → V) {INFINITY : V} :
    ∀ (toks : List (List Char)) (st st1 : State V) (seen : List (List Char × V)),
      readingsLoop atof toks st = .ok st1 → ExtremesInv INFINITY seen st →
      st1.numSensors = st.numSensors + toks.length ∧
      st1.totalReadings = st.totalReadings ∧
      st1.expectedSensorCount = st.expectedSensorCount ∧
      st1.timeStamp = st.timeStamp ∧
      (∀ i j, st1.allReadings i j =
        if j = st.totalReadings ∧ st.numSensors ≤ i ∧ i < st.numSensors + toks.length
        then atof (toks.getD (i - st.numSensors) []) else st.allReadings i j) ∧
      (∀ tok ∈ toks, isValidSensorReading tok ≠ 0) ∧
      (toks ≠ [] → st.numSensors + toks.length ≤ MAX_SENSORS) ∧
      (toks ≠ [] → st.totalReadings < MAX_LINE_LENGTH) ∧
      ExtremesInv INFINITY (seen ++ toks.map (fun tok => (st.timeStamp, atof tok))) st1 := by
  intro toks
  induction toks with
  | nil =>
    intro st st1 seen h hinv
    simp only [readingsLoop, Except.ok.injEq] at h
    subst h
    refine ⟨rfl, rfl, rfl, rfl, ?_, ?_, ?_, ?_, ?_⟩
    · intro i j
      have : ¬ (j = st.totalReadings ∧ st.numSensors ≤ i ∧ i < st.numSensors + ([] : List (List Char)).length) := by
        simp only [List.length_nil]; omega
      rw [if_neg this]
    · intro tok htok; cases htok
    · intro h; exact absurd rfl h
    · intro h; exact absurd rfl h
    · simpa using hinv
  | cons tok rest ih =>
    intro st st1 seen h hinv
    have hA : st.numSensors < MAX_SENSORS := by
      by_contra hc
      rw [readingsLoop, if_pos (by omega)] at h
      cases h
    have hB : isValidSensorReading tok ≠ 0 := by
      intro hc
      rw [readingsLoop, if_neg (by omega), if_pos hc] at h
      cases h
    have hC : st.totalReadings < MAX_LINE_LENGTH := by
      by_contra hc
      rw [readingsLoop, if_neg (by omega), if_neg hB, if_pos (by omega)] at h
      cases h
    rw [readingsLoop_cons_ok atof tok rest st hA hB hC] at h
    obtain ⟨k1, k2, k3, k4, k5, k6, k7, k8, k9⟩ :=
      ih _ st1 (seen ++ [(st.timeStamp, atof tok)]) h
        (extremes_step seen st _ st.timeStamp (atof tok) hinv rfl rfl rfl rfl)
    dsimp only at k1 k2 k3 k4 k5 k7 k9
    refine ⟨?_, k2, k3, k4, ?_, ?_, ?_, fun _ => hC, ?_⟩
    · rw [k1, List.length_cons]; omega
    · intro i j
      rw [k5 i j]
      simp only [List.length_cons]
      by_cases hj : j = st.totalReadings
      · by_cases hi : i = st.numSensors
        · subst hi
          have e1 : ¬ (j = st.totalReadings ∧ st.numSensors + 1 ≤ st.numSensors ∧
              st.numSensors < st.numSensors + 1 + rest.length) := by omega
          have e2 : j = st.totalReadings ∧ st.numSensors ≤ st.numSensors ∧
              st.numSensors < st.numSensors + (rest.length + 1) := ⟨hj, le_refl _, by omega⟩
          rw [if_neg e1, if_pos e2, if_pos ⟨rfl, hj⟩]
          simp
        · by_cases hr : st.numSensors + 1 ≤ i ∧ i < st.numSensors + 1 + rest.length
          · have e2 : j = st.totalReadings ∧ st.numSensors ≤ i ∧
                i < st.numSensors + (rest.length + 1) := ⟨hj, by omega, by omega⟩
            rw [if_pos ⟨hj, hr⟩, if_pos e2]
            have : i - st.numSensors = (i - (st.numSensors + 1)) + 1 := by omega
            rw [this]
            simp
          · have e1 : ¬ (j = st.totalReadings ∧ st.numSensors + 1 ≤ i ∧
                i < st.numSensors + 1 + rest.length) := fun e => hr e.2
            have e2 : ¬ (j = st.totalReadings ∧ st.numSensors ≤ i ∧
                i < st.numSensors + (rest.length + 1)) := by omega
            have e3 : ¬ (i = st.numSensors ∧ j = st.totalReadings) := fun e => hi e.1
            rw [if_neg e1, if_neg e2, if_neg e3]
      · have e1 : ¬ (j = st.totalReadings ∧ st.numSensors + 1 ≤ i ∧
            i < st.numSensors + 1 + rest.length) := fun e => hj e.1
        have e2 : ¬ (j = st.totalReadings ∧ st.numSensors ≤ i ∧
            i < st.numSensors + (rest.length + 1)) := fun e => hj e.1
        have e3 : ¬ (i = st.numSensors ∧ j = st.totalReadings) := fun e => hj e.2
        rw [if_neg e1, if_neg e2, if_neg e3]
    · intro t ht
      rcases List.mem_cons.mp ht with e | e
      · rw [e]; exact hB
      · exact k6 t e
    · intro _
      rw [List.length_cons]
      cases rest with
      | nil => simp only [List.length_nil]; omega
      | cons r rs =>
        have := k7 (by simp)
        omega
    · simpa [List.append_assoc] using k9

theorem readingsLoop_invalid {V : Type} [LinearOrderedField V] (atof : List Char → V)
    (tok : List Char) (toks2 : List (List Char)) (hbad : isValidSensorReading tok = 0) :
    ∀ (toks1 : List (List Char)) (st : State V),
      (∀ t ∈ toks1, isValidSensorReading t ≠ 0) →
      st.numSensors + toks1.length < MAX_SENSORS → st.totalReadings < MAX_LINE_LENGTH →
      readingsLoop atof (toks1 ++ tok :: toks2) st
        = .error (.exit (.invalidSensorReading tok)) := by
  intro toks1
  induction toks1 with
  | nil =>
    intro st _ h2 _
    simp only [List.length_nil, Nat.add_zero] at h2
    rw [List.nil_append, readingsLoop, if_neg (by omega), if_pos hbad]
  | cons t ts ih =>
    intro st h1 h2 h3
    simp only [List.length_cons] at h2
    rw [List.cons_append,
      readingsLoop_cons_ok atof t _ st (by omega) (h1 t (List.mem_cons_self _ _)) h3]
    apply ih
    · exact fun x hx => h1 x (List.mem_cons_of_mem _ hx)
    · show st.numSensors + 1 + ts.length < MAX_SENSORS
      omega
    · exact h3

theorem readingsLoop_valid {V : Type} [LinearOrderedField V] (atof : List Char → V) :
    ∀ (toks : List (List Char)) (st : State V),
      (∀ t ∈ toks, isValidSensorReading t ≠ 0) → st.numSensors ≤ MAX_SENSORS →
      st.totalReadings < MAX_LINE_LENGTH →
      (st.numSensors + toks.length ≤ MAX_SENSORS → ∃ st1, readingsLoop atof toks st = .ok st1) ∧
      (MAX_SENSORS < st.numSensors + toks.length →
        readingsLoop atof toks st = .error (.exit .inconsistentSensorReadings)) := by
  intro toks
  induction toks with
  | nil =>
    intro st _ h2 _
    refine ⟨fun _ => ⟨st, rfl⟩, fun h => ?_⟩
    simp only [List.length_nil, Nat.add_zero] at h
    omega
  | cons t ts ih =>
    intro st h1 h2 h3
    simp only [List.length_cons]
    by_cases hfull : st.numSensors < MAX_SENSORS
    · rw [readingsLoop_cons_ok atof t _ st hfull (h1 t (List.mem_cons_self _ _)) h3]
      have := ih { st with
          allReadings := fun i j =>
            if i = st.numSensors ∧ j = st.totalReadings then atof t else st.allReadings i j
          maxReading := if atof t > st.maxReading then atof t
                        else st.maxReading
          maxTimestamp := if atof t > st.maxReading then st.timeStamp
                          else st.maxTimestamp
          minReading := if atof t < st.minReading then atof t
                        else st.minReading
          minTimestamp := if atof t < st.minReading then st.timeStamp
                          else st.minTimestamp
          numSensors := st.numSensors + 1 }
        (fun x hx => h1 x (List.mem_cons_of_mem _ hx)) (by show st.numSensors + 1 ≤ MAX_SENSORS; omega) h3
      dsimp only at this
      refine ⟨fun h => this.1 (by omega), fun h => this.2 (by omega)⟩
    · refine ⟨fun h => by omega, fun _ => ?_⟩
      rw [readingsLoop, if_pos (by omega)]

theorem lineTokens_eq_cons (l : List Char) (h : lineTokens l ≠ []) :
    lineTokens l = timestampToken l :: readingTokens l := by
  unfold timestampToken readingTokens
  cases ht : lineTokens l with
  | nil => exact absurd ht h
  | cons a b => rfl

theorem lineTokens_ne_nil (l : List Char) (h : isSkipped l = false) : lineTokens l ≠ [] := by
  have hns : ¬ (strspn l [' ', '\t', '\n', '\r'] = strlen l) := by
    intro e
    simp [isSkipped, e] at h
  have hex : ∃ c ∈ l, ¬ ([' ', '\t', '\n', '\r'].contains c = true) := by
    by_contra hall
    push_neg at hall
    apply hns
    unfold strspn strlen
    rw [List.takeWhile_eq_self_iff.mpr hall]
  obtain ⟨c, hc, hcw⟩ := hex
  have hcd : ¬ (tokenDelims.contains c = true) := by
    intro e
    apply hcw
    simp only [tokenDelims, List.contains_eq_any_beq, List.any_cons, List.any_nil, Bool.or_false,
      Bool.or_eq_true, beq_iff_eq] at e ⊢
    rcases e with e | e
    · exact Or.inl e
    · exact Or.inr (Or.inl e)
  have hdrop : l.dropWhile (fun c => tokenDelims.contains c) ≠ [] := by
    intro e
    rw [List.dropWhile_eq_nil_iff] at e
    exact hcd (e c hc)
  have hlen : l.length ≠ 0 := by
    intro e
    rw [List.length_eq_zero] at e
    subst e
    cases hc
  obtain ⟨n, hn⟩ := Nat.exists_eq_succ_of_ne_zero hlen
  unfold lineTokens
  rw [hn, strtokAll]
  unfold strtok
  cases hd : l.dropWhile (fun c => tokenDelims.contains c) with
  | nil => exact absurd hd hdrop
  | cons a b => simp

theorem strcpy_eq_some {size : Nat} {src dst : List Char} (h : strcpy size src = some dst) :
    dst = src ∧ src.length + 1 ≤ size := by
  unfold strcpy at h
  split_ifs at h with hs
  · injection h with h
    exact ⟨h.symm, hs⟩

theorem stampedReadings_append_singleton {V : Type} (atof : List Char → V)
    (done : List (List Char)) (l : List Char) :
    stampedReadings atof (done ++ [l]) =
      stampedReadings atof done
        ++ (readingTokens l).map (fun tok => (timestampToken l, atof tok)) := by
  simp [stampedReadings]

/-- Unfolding of `processTokens` on a line that has a timestamp. -/
theorem processTokens_cons {V : Type} [LinearOrderedField V] (atof : List Char → V)
    (ts : List Char) (toks : List (List Char)) (st : State V) (hfit : ts.length + 1 ≤ BUFFER) :
    processTokens atof (ts :: toks) st =
      match readingsLoop atof toks { st with numSensors := 0, timeStamp := ts } with
      | .error a => .error a
      | .ok st1 =>
        if st1.expectedSensorCount = -1 then
          .ok { st1 with expectedSensorCount := st1.numSensors,
                         totalReadings := st1.totalReadings + 1 }
        else if (st1.numSensors : Int) ≠ st1.expectedSensorCount then
          .error (.exit .inconsistentSensorReadings)
        else .ok { st1 with totalReadings := st1.totalReadings + 1 } := by
  unfold processTokens
  simp only [strcpy, if_pos hfit]

theorem processTokens_ok_fit {V : Type} [LinearOrderedField V] (atof : List Char → V)
    (l : List Char) (st st1 : State V) (h : processTokens atof (lineTokens l) st = .ok st1) :
    lineTokens l ≠ [] ∧ (timestampToken l).length + 1 ≤ BUFFER := by
  cases hlt : lineTokens l with
  | nil => rw [hlt] at h; simp [processTokens] at h
  | cons ts toks =>
    refine ⟨by simp, ?_⟩
    have e : timestampToken l = ts := by simp [timestampToken, hlt]
    rw [e]
    rw [hlt] at h
    by_contra hc
    simp [processTokens, strcpy, hc] at h

/-- A line that is processed without error extends the invariant of the loop. -/
theorem processTokens_ok_inv {V : Type} [LinearOrderedField V] (atof : List Char → V) {INFINITY : V}
    (done : List (List Char)) (l : List Char) (st st1 : State V)
    (hinv : IngestInv atof INFINITY done st)
    (h : processTokens atof (lineTokens l) st = .ok st1) :
    IngestInv atof INFINITY (done ++ [l]) st1 := by
  obtain ⟨hne, hfit⟩ := processTokens_ok_fit atof l st st1 h
  rw [lineTokens_eq_cons l hne, processTokens_cons atof _ _ st hfit] at h
  cases hrl : readingsLoop atof (readingTokens l)
      { st with numSensors := 0, timeStamp := timestampToken l } with
  | error a => rw [hrl] at h; cases h
  | ok st2 =>
    rw [hrl] at h
    dsimp only at h
    have hex0 : ExtremesInv INFINITY (stampedReadings atof done)
        ({ st with numSensors := 0, timeStamp := timestampToken l } : State V) :=
      ⟨hinv.extremes.maxBound, hinv.extremes.maxLower, hinv.extremes.maxFirst,
        hinv.extremes.maxInitial, hinv.extremes.minBound, hinv.extremes.minUpper,
        hinv.extremes.minFirst, hinv.extremes.minInitial⟩
    obtain ⟨k1, k2, k3, k4, k5, k6, k7, k8, k9⟩ :=
      readingsLoop_ok atof _ _ st2 _ hrl hex0
    dsimp only at k1 k2 k3 k4 k5 k7 k8 k9
    rw [Nat.zero_add] at k1
    rw [← stampedReadings_append_singleton] at k9
    have hcount : (readingTokens l).length ≤ MAX_SENSORS := by
      by_cases e : readingTokens l = []
      · rw [e]; simp
      · have := k7 e; omega
    -- facts shared by the two successful branches
    have hexp : ∀ l1 ∈ done, ((readingTokens l1).length : Int) = st.expectedSensorCount :=
      fun l1 h1 => (hinv.expected l1 h1).symm
    have hbranch : st1.numSensors = (readingTokens l).length ∧
        st1.totalReadings = done.length + 1 ∧
        st1.expectedSensorCount = ((readingTokens l).length : Int) ∧
        (∀ l1 ∈ done, (readingTokens l1).length = (readingTokens l).length) ∧
        st1.allReadings = st2.allReadings ∧ st1.maxReading = st2.maxReading ∧
        st1.maxTimestamp = st2.maxTimestamp ∧ st1.minReading = st2.minReading ∧
        st1.minTimestamp = st2.minTimestamp := by
      by_cases he : st2.expectedSensorCount = -1
      · rw [if_pos he] at h
        injection h with h
        subst h
        have hd : done = [] := by
          cases done with
          | nil => rfl
          | cons a b =>
            have := hexp a (List.mem_cons_self _ _)
            rw [← k3, he] at this
            omega
        subst hd
        refine ⟨k1, ?_, ?_, ?_, rfl, rfl, rfl, rfl, rfl⟩
        · show st2.totalReadings + 1 = _
          rw [k2, hinv.total]
        · show (st2.numSensors : Int) = _
          rw [k1]
        · intro l1 h1; cases h1
      · rw [if_neg he] at h
        by_cases hm : (st2.numSensors : Int) ≠ st2.expectedSensorCount
        · rw [if_pos hm] at h; cases h
        · rw [if_neg hm] at h
          injection h with h
          subst h
          have hm1 : (st2.numSensors : Int) = st2.expectedSensorCount := by
            by_contra e; exact hm e
          refine ⟨k1, ?_, ?_, ?_, rfl, rfl, rfl, rfl, rfl⟩
          · show st2.totalReadings + 1 = _
            rw [k2, hinv.total]
          · show st2.expectedSensorCount = _
            rw [← hm1, k1]
          · intro l1 h1
            have := hexp l1 h1
            rw [← k3, ← hm1, k1] at this
            exact_mod_cast this
    obtain ⟨b1, b2, b3, b4, b5, b6, b7, b8, b9⟩ := hbranch
    constructor
    · rw [b2]; simp
    · intro e; simp at e
    · intro l1 h1
      rcases List.mem_append.mp h1 with e | e
      · rw [b3, b4 l1 e]
      · have : l1 = l := by simpa using e
        rw [this, b3]
    · intro _
      rw [b1, b3]
    · intro j i hj hi
      rw [b5, k5 i j]
      by_cases hjd : j < done.length
      · have e1 : ¬ (j = st.totalReadings ∧ 0 ≤ i ∧ i < 0 + (readingTokens l).length) := by
          rw [hinv.total]; omega
        have e2 : (done ++ [l]).getD j [] = done.getD j [] := by
          simp [List.getD_eq_getElem?_getD, List.getElem?_append_left hjd]
        rw [if_neg e1, e2]
        rw [e2] at hi
        exact hinv.table j i hjd hi
      · have hjeq : j = done.length := by
          simp only [List.length_append, List.length_singleton] at hj
          omega
        have e2 : (done ++ [l]).getD j [] = l := by
          subst hjeq
          simp [List.getD_eq_getElem?_getD]
        rw [e2] at hi ⊢
        have e1 : j = st.totalReadings ∧ 0 ≤ i ∧ i < 0 + (readingTokens l).length :=
          ⟨by rw [hinv.total, hjeq], Nat.zero_le _, by omega⟩
        rw [if_pos e1, Nat.sub_zero]
    · exact ⟨by rw [b6]; exact k9.maxBound, by rw [b6]; exact k9.maxLower,
        by rw [b6, b7]; exact k9.maxFirst, by rw [b6, b7]; exact k9.maxInitial,
        by rw [b8]; exact k9.minBound, by rw [b8]; exact k9.minUpper,
        by rw [b8, b9]; exact k9.minFirst, by rw [b8, b9]; exact k9.minInitial⟩
    · intro l1 h1
      rcases List.mem_append.mp h1 with e | e
      · exact hinv.valid l1 e
      · have : l1 = l := by simpa using e
        rw [this]; exact k6
    · intro l1 h1
      rcases List.mem_append.mp h1 with e | e
      · exact hinv.bounded l1 e
      · have : l1 = l := by simpa using e
        rw [this]; exact hcount
    · intro l1 h1
      rcases List.mem_append.mp h1 with e | e
      · exact hinv.stamps l1 e
      · have : l1 = l := by simpa using e
        rw [this]; exact hfit
    · intro l1 h1 hne1
      have hl : readingTokens l ≠ [] := by
        rcases List.mem_append.mp h1 with e | e
        · intro e0
          have := b4 l1 e
          rw [e0, List.length_nil, List.length_eq_zero] at this
          exact hne1 this
        · have : l1 = l := by simpa using e
          rw [← this]; exact hne1
      have := k8 hl
      rw [hinv.total] at this
      simp only [List.length_append, List.length_singleton]
      omega

theorem ingestInv_initial {V : Type} [LinearOrderedField V] (atof : List Char → V) {INFINITY : V} :
    IngestInv atof INFINITY [] (initialState V INFINITY) := by
  constructor
  · rfl
  · intro _; rfl
  · intro l h; cases h
  · intro h; exact absurd rfl h
  · intro j i hj; simp at hj
  · constructor
    · intro p hp; simp [stampedReadings] at hp
    · exact le_refl _
    · intro hne; exact absurd rfl hne
    · intro _; rfl
    · intro p hp; simp [stampedReadings] at hp
    · exact le_refl _
    · intro hne; exact absurd rfl hne
    · intro _; rfl
  · intro l h; cases h
  · intro l h; cases h
  · intro l h; cases h
  · intro l h; cases h

theorem ingestNonBlank_ok_inv {V : Type} [LinearOrderedField V] (atof : List Char → V) {INFINITY : V} :
    ∀ (ls done : List (List Char)) (st st1 : State V),
      IngestInv atof INFINITY done st → ingestNonBlank atof ls st = .ok st1 →
      IngestInv atof INFINITY (done ++ ls) st1 := by
  intro ls
  induction ls with
  | nil =>
    intro done st st1 hinv h
    simp only [ingestNonBlank, Except.ok.injEq] at h
    subst h
    simpa using hinv
  | cons l ls ih =>
    intro done st st1 hinv h
    rw [ingestNonBlank] at h
    cases hp : processTokens atof (lineTokens l) st with
    | error a => rw [hp] at h; cases h
    | ok st2 =>
      rw [hp] at h
      have := ih (done ++ [l]) st2 st1 (processTokens_ok_inv atof done l st st2 hinv hp) h
      simpa [List.append_assoc] using this

theorem processTokens_exists {V : Type} [LinearOrderedField V] (atof : List Char → V) {INFINITY : V}
    (done : List (List Char)) (l : List Char) (st : State V)
    (hinv : IngestInv atof INFINITY done st) (hne : lineTokens l ≠ [])
    (hfit : (timestampToken l).length + 1 ≤ BUFFER)
    (hvalid : ∀ tok ∈ readingTokens l, isValidSensorReading tok ≠ 0)
    (hcount : (readingTokens l).length ≤ MAX_SENSORS)
    (hsame : ∀ l1 ∈ done, (readingTokens l1).length = (readingTokens l).length)
    (hrows : done.length < MAX_LINE_LENGTH) :
    ∃ st1, processTokens atof (lineTokens l) st = .ok st1 := by
  rw [lineTokens_eq_cons l hne, processTokens_cons atof _ _ st hfit]
  obtain ⟨st2, hrl⟩ := (readingsLoop_valid atof (readingTokens l)
    ({ st with numSensors := 0, timeStamp := timestampToken l } : State V) hvalid
    (Nat.zero_le _) (by show st.totalReadings < MAX_LINE_LENGTH; rw [hinv.total]; exact hrows)).1
    (by show 0 + (readingTokens l).length ≤ MAX_SENSORS; omega)
  have hex0 : ExtremesInv INFINITY (stampedReadings atof done)
      ({ st with numSensors := 0, timeStamp := timestampToken l } : State V) :=
    ⟨hinv.extremes.maxBound, hinv.extremes.maxLower, hinv.extremes.maxFirst,
      hinv.extremes.maxInitial, hinv.extremes.minBound, hinv.extremes.minUpper,
      hinv.extremes.minFirst, hinv.extremes.minInitial⟩
  obtain ⟨k1, -, k3, -⟩ := readingsLoop_ok atof _ _ st2 _ hrl hex0
  dsimp only at k1 k3
  rw [Nat.zero_add] at k1
  rw [hrl]
  dsimp only
  by_cases he : st2.expectedSensorCount = -1
  · rw [if_pos he]; exact ⟨_, rfl⟩
  · rw [if_neg he]
    have hd : done ≠ [] := by
      intro e
      exact he (by rw [k3]; exact hinv.expectedNil e)
    obtain ⟨l1, hl1⟩ := List.exists_mem_of_ne_nil done hd
    have hm : ¬ ((st2.numSensors : Int) ≠ st2.expectedSensorCount) := by
      rw [k3, hinv.expected l1 hl1, hsame l1 hl1, k1]
      simp
    rw [if_neg hm]; exact ⟨_, rfl⟩

theorem processTokens_mismatch {V : Type} [LinearOrderedField V] (atof : List Char → V) {INFINITY : V}
    (done : List (List Char)) (l : List Char) (st : State V)
    (hinv : IngestInv atof INFINITY done st) (hne : lineTokens l ≠ [])
    (hfit : (timestampToken l).length + 1 ≤ BUFFER)
    (hvalid : ∀ tok ∈ readingTokens l, isValidSensorReading tok ≠ 0)
    (hrows : done.length < MAX_LINE_LENGTH)
    (hdiff : MAX_SENSORS < (readingTokens l).length ∨
      ∃ l1 ∈ done, (readingTokens l1).length ≠ (readingTokens l).length) :
    processTokens atof (lineTokens l) st = .error (.exit .inconsistentSensorReadings) := by
  rw [lineTokens_eq_cons l hne, processTokens_cons atof _ _ st hfit]
  have hval := readingsLoop_valid atof (readingTokens l)
    ({ st with numSensors := 0, timeStamp := timestampToken l } : State V) hvalid
    (Nat.zero_le _) (by show st.totalReadings < MAX_LINE_LENGTH; rw [hinv.total]; exact hrows)
  by_cases hbig : MAX_SENSORS < (readingTokens l).length
  · rw [hval.2 (by show MAX_SENSORS < 0 + (readingTokens l).length; omega)]
  · obtain ⟨st2, hrl⟩ := hval.1 (by show 0 + (readingTokens l).length ≤ MAX_SENSORS; omega)
    have hex0 : ExtremesInv INFINITY (stampedReadings atof done)
        ({ st with numSensors := 0, timeStamp := timestampToken l } : State V) :=
      ⟨hinv.extremes.maxBound, hinv.extremes.maxLower, hinv.extremes.maxFirst,
        hinv.extremes.maxInitial, hinv.extremes.minBound, hinv.extremes.minUpper,
        hinv.extremes.minFirst, hinv.extremes.minInitial⟩
    obtain ⟨k1, -, k3, -⟩ := readingsLoop_ok atof _ _ st2 _ hrl hex0
    dsimp only at k1 k3
    rw [Nat.zero_add] at k1
    rw [hrl]
    dsimp only
    rcases hdiff with hd | ⟨l1, hl1, hd⟩
    · exact absurd hd hbig
    · have hexp := hinv.expected l1 hl1
      have he : ¬ (st2.expectedSensorCount = -1) := by
        rw [k3, hexp]; omega
      have hm : (st2.numSensors : Int) ≠ st2.expectedSensorCount := by
        rw [k3, hexp, k1]
        intro e
        exact hd (by exact_mod_cast e.symm)
      rw [if_neg he, if_pos hm]

theorem processTokens_invalid {V : Type} [LinearOrderedField V] (atof : List Char → V) {INFINITY : V}
    (done : List (List Char)) (l : List Char) (st : State V)
    (toks1 toks2 : List (List Char)) (tok : List Char)
    (hinv : IngestInv atof INFINITY done st)
    (hfit : (timestampToken l).length + 1 ≤ BUFFER)
    (hrt : readingTokens l = toks1 ++ tok :: toks2)
    (hvalid : ∀ t ∈ toks1, isValidSensorReading t ≠ 0)
    (hbad : isValidSensorReading tok = 0)
    (hlen : toks1.length < MAX_SENSORS)
    (hrows : done.length < MAX_LINE_LENGTH) :
    processTokens atof (lineTokens l) st = .error (.exit (.invalidSensorReading tok)) := by
  have hne : lineTokens l ≠ [] := by
    intro e
    simp [readingTokens, e] at hrt
  rw [lineTokens_eq_cons l hne, processTokens_cons atof _ _ st hfit, hrt]
  rw [readingsLoop_invalid atof tok toks2 hbad toks1 _ hvalid
    (by show 0 + toks1.length < MAX_SENSORS; omega)
    (by show st.totalReadings < MAX_LINE_LENGTH; rw [hinv.total]; exact hrows)]

/-- Lines that are well formed, with equal reading counts within the bounds of the
buffers, are ingested without error. -/
theorem ingestNonBlank_exists {V : Type} [LinearOrderedField V] (atof : List Char → V) {INFINITY : V} :
    ∀ (ls done : List (List Char)) (st : State V),
      IngestInv atof INFINITY done st →
      (∀ l ∈ ls, lineTokens l ≠ []) →
      (∀ l ∈ ls, (timestampToken l).length + 1 ≤ BUFFER) →
      (∀ l ∈ ls, ∀ tok ∈ readingTokens l, isValidSensorReading tok ≠ 0) →
      (∀ l ∈ ls, (readingTokens l).length ≤ MAX_SENSORS) →
      (∀ l ∈ ls, ∀ l1 ∈ done ++ ls, (readingTokens l1).length = (readingTokens l).length) →
      (done ++ ls).length ≤ MAX_LINE_LENGTH →
      ∃ st1, ingestNonBlank atof ls st = .ok st1 := by
  intro ls
  induction ls with
  | nil => intro done st _ _ _ _ _ _ _; exact ⟨st, rfl⟩
  | cons l ls ih =>
    intro done st hinv h1 h2 h3 h4 h5 h6
    have hl : l ∈ l :: ls := List.mem_cons_self _ _
    simp only [List.length_append, List.length_cons] at h6
    obtain ⟨st2, hp⟩ := processTokens_exists atof done l st hinv (h1 l hl) (h2 l hl) (h3 l hl)
      (h4 l hl) (fun l1 hl1 => h5 l hl l1 (List.mem_append_left _ hl1)) (by omega)
    rw [ingestNonBlank, hp]
    have hinv2 := processTokens_ok_inv atof done l st st2 hinv hp
    apply ih (done ++ [l]) st2 hinv2
    · exact fun x hx => h1 x (List.mem_cons_of_mem _ hx)
    · exact fun x hx => h2 x (List.mem_cons_of_mem _ hx)
    · exact fun x hx => h3 x (List.mem_cons_of_mem _ hx)
    · exact fun x hx => h4 x (List.mem_cons_of_mem _ hx)
    · intro x hx l1 hl1
      exact h5 x (List.mem_cons_of_mem _ hx) l1 (by simpa [List.append_assoc] using hl1)
    · simp only [List.length_append, List.length_cons, List.length_nil]
      omega

theorem ingest_eq_ingestNonBlank {V : Type} [LinearOrderedField V] (atof : List Char → V) {INFINITY : V}
    (inputFile : List Char) :
    ingest atof INFINITY inputFile = ingestNonBlank atof (nonBlankLines inputFile) (initialState V INFINITY) :=
  ingestLines_eq_ingestNonBlank atof (fileLines inputFile) (initialState V INFINITY)

theorem readSensorData_of_error {V : Type} [LinearOrderedField V] (sqrt : V → V)
    (atof : List Char → V) {INFINITY : V} (inputFile : List Char) (a : Abort)
    (h : ingestNonBlank atof (nonBlankLines inputFile) (initialState V INFINITY) = .error a) :
    readSensorData sqrt atof INFINITY inputFile = .aborted a := by
  rw [← ingest_eq_ingestNonBlank] at h
  simp only [readSensorData, h]

theorem readSensorData_of_ok {V : Type} [LinearOrderedField V] (sqrt : V → V)
    (atof : List Char → V) {INFINITY : V} (inputFile : List Char) (st : State V)
    (h : ingestNonBlank atof (nonBlankLines inputFile) (initialState V INFINITY) = .ok st) :
    readSensorData sqrt atof INFINITY inputFile = finish sqrt st := by
  rw [← ingest_eq_ingestNonBlank] at h
  simp only [readSensorData, h]

/-- A run that reaches the report: the final state of the loop and the report made of it. -/
theorem readSensorData_reported {V : Type} [LinearOrderedField V] (sqrt : V → V)
    (atof : List Char → V) {INFINITY : V} (inputFile : List Char) (r : Report V)
    (h : readSensorData sqrt atof INFINITY inputFile = .reported r) :
    ∃ st : State V, IngestInv atof INFINITY (nonBlankLines inputFile) st ∧ st.totalReadings ≠ 0 ∧
      r.maxReading = st.maxReading ∧ r.maxTimestamp = st.maxTimestamp ∧
      r.minReading = st.minReading ∧ r.minTimestamp = st.minTimestamp ∧
      r.sensorCount = st.numSensors ∧
      r.stats = (List.range st.numSensors).map
        (fun i => calcSensorStats sqrt (st.allReadings i) st.totalReadings) := by
  cases hi : ingestNonBlank atof (nonBlankLines inputFile) (initialState V INFINITY) with
  | error a =>
    rw [readSensorData_of_error sqrt atof inputFile a hi] at h
    cases h
  | ok st =>
    rw [readSensorData_of_ok sqrt atof inputFile st hi] at h
    have hinv := ingestNonBlank_ok_inv atof _ [] _ st (ingestInv_initial atof) hi
    rw [List.nil_append] at hinv
    unfold finish at h
    by_cases h0 : st.totalReadings = 0
    · rw [if_pos h0] at h; cases h
    · rw [if_neg h0] at h
      injection h with h
      subst h
      exact ⟨st, hinv, h0, rfl, rfl, rfl, rfl, rfl, rfl⟩

theorem find_stamped_line {V : Type} [LinearOrderedField V] (atof : List Char → V)
    (ts : List Char) (toks : List (List Char)) (v : V) (h : ∃ tok ∈ toks, atof tok = v) :
    (toks.map (fun tok => (ts, atof tok))).find? (fun p => decide (p.2 = v)) = some (ts, v) := by
  induction toks with
  | nil => obtain ⟨tok, ht, -⟩ := h; cases ht
  | cons t rest ih =>
    by_cases e : atof t = v
    · simp [List.find?, e]
    · obtain ⟨tok, ht, hv⟩ := h
      rcases List.mem_cons.mp ht with e1 | e1
      · subst e1; exact absurd hv e
      · simp only [List.map_cons, List.find?, decide_eq_true_eq, e, decide_False]
        exact ih ⟨tok, e1, hv⟩

theorem find_stamped_none {V : Type} [LinearOrderedField V] (atof : List Char → V)
    (ls : List (List Char)) (v : V)
    (h : ∀ l ∈ ls, ∀ tok ∈ readingTokens l, atof tok ≠ v) :
    (stampedReadings atof ls).find? (fun p => decide (p.2 = v)) = none := by
  rw [List.find?_eq_none]
  intro p hp
  unfold stampedReadings at hp
  rw [List.mem_flatten] at hp
  obtain ⟨row, hrow, hprow⟩ := hp
  obtain ⟨l, hl, rfl⟩ := List.mem_map.mp hrow
  obtain ⟨tok, ht, rfl⟩ := List.mem_map.mp hprow
  simpa using h l hl tok ht

theorem find_stamped_first {V : Type} [LinearOrderedField V] (atof : List Char → V)
    (ls1 ls2 : List (List Char)) (l : List Char) (v : V)
    (h1 : ∀ l1 ∈ ls1, ∀ tok ∈ readingTokens l1, atof tok ≠ v)
    (h2 : ∃ tok ∈ readingTokens l, atof tok = v) :
    (stampedReadings atof (ls1 ++ l :: ls2)).find? (fun p => decide (p.2 = v))
      = some (timestampToken l, v) := by
  have e : stampedReadings atof (ls1 ++ l :: ls2) =
      stampedReadings atof ls1 ++
        ((readingTokens l).map (fun tok => (timestampToken l, atof tok))
          ++ stampedReadings atof ls2) := by
    simp [stampedReadings]
  rw [e, List.find?_append, find_stamped_none atof ls1 v h1, List.find?_append,
    find_stamped_line atof _ _ v h2]
  rfl

/-- When a run reaches the report with a maximum that differs from the initial `-INFINITY`
(respectively with a minimum that differs from the initial `INFINITY`), the timestamp
reported with it is the timestamp token of the earliest line read that contains a reading
equal to it. -/
theorem readSensorData_moved_extreme_timestamp_is_earliest {V : Type} [LinearOrderedField V]
    (sqrt : V → V) (atof : List Char → V) (INFINITY : V) (inputFile : List Char) (r : Report V)
    (h : readSensorData sqrt atof INFINITY inputFile = .reported r)
    (ls1 ls2 : List (List Char)) (l : List Char)
    (hsplit : nonBlankLines inputFile = ls1 ++ l :: ls2) :
    (r.maxReading ≠ -INFINITY → (∃ tok ∈ readingTokens l, atof tok = r.maxReading) →
      (∀ l1 ∈ ls1, ∀ tok ∈ readingTokens l1, atof tok ≠ r.maxReading) →
      r.maxTimestamp = timestampToken l) ∧
    (r.minReading ≠ INFINITY → (∃ tok ∈ readingTokens l, atof tok = r.minReading) →
      (∀ l1 ∈ ls1, ∀ tok ∈ readingTokens l1, atof tok ≠ r.minReading) →
      r.minTimestamp = timestampToken l) := by
  obtain ⟨st, hinv, -, e1, e2, e3, e4, -, -⟩ :=
    readSensorData_reported sqrt atof inputFile r h
  rw [hsplit] at hinv
  rw [e1, e2, e3, e4]
  constructor
  · intro hne hex hbefore
    have hfirst := hinv.extremes.maxFirst hne
    rw [find_stamped_first atof ls1 ls2 l st.maxReading hbefore hex] at hfirst
    injection hfirst with hfirst
    injection hfirst with hts _
    exact hts.symm
  · intro hne hex hbefore
    have hfirst := hinv.extremes.minFirst hne
    rw [find_stamped_first atof ls1 ls2 l st.minReading hbefore hex] at hfirst
    injection hfirst with hfirst
    injection hfirst with hts _
    exact hts.symm

/-- An extreme that is reported with its initial value is reported with the initial
timestamp, a single space, whatever the readings were. -/
theorem readSensorData_initial_extreme_timestamp {V : Type} [LinearOrderedField V]
    (sqrt : V → V) (atof : List Char → V) (INFINITY : V) (inputFile : List Char) (r : Report V)
    (h : readSensorData sqrt atof INFINITY inputFile = .reported r) :
    (r.maxReading = -INFINITY → r.maxTimestamp = [' ']) ∧
    (r.minReading = INFINITY → r.minTimestamp = [' ']) := by
  obtain ⟨st, hinv, -, e1, e2, e3, e4, -, -⟩ :=
    readSensorData_reported sqrt atof inputFile r h
  rw [e1, e2, e3, e4]
  exact ⟨hinv.extremes.maxInitial, hinv.extremes.minInitial⟩

set_option maxRecDepth 100000 in
/-- C4: evaluation at the failing input. In the log with the lines `a -1e39` and `b -1e39`
both reading tokens are accepted by `isValidSensorReading` and become the float
`-INFINITY`, so the maximum `-INFINITY` occurs on both lines; the test
`readings[numSensors] > maxReading` never succeeds and the maximum is reported with the
initial timestamp, a single space, not with `a`. The same happens to the minimum on the
lines `a 1e39` and `b 1e39`. On the lines `a 7` and `b 7` both extremes are reported
with the timestamp `a` of the earlier line. -/
theorem readSensorData_extreme_timestamp_lost_at_infinity :
    (nonBlankLines "a -1e39\nb -1e39\n".toList = ["a -1e39\n".toList, "b -1e39\n".toList] ∧
     timestampToken "a -1e39\n".toList = ['a'] ∧
     readingTokens "a -1e39\n".toList = ["-1e39\n".toList] ∧
     readingTokens "b -1e39\n".toList = ["-1e39\n".toList] ∧
     isValidSensorReading "-1e39\n".toList = 1 ∧
     atofFloat "-1e39\n".toList = -floatInfinity ∧
     (readSensorData sqrtApprox atofFloat floatInfinity "a -1e39\nb -1e39\n".toList).output.map
        (fun r => (r.maxReading, r.maxTimestamp)) = some (-floatInfinity, [' '])) ∧
    (nonBlankLines "a 1e39\nb 1e39\n".toList = ["a 1e39\n".toList, "b 1e39\n".toList] ∧
     timestampToken "a 1e39\n".toList = ['a'] ∧
     readingTokens "a 1e39\n".toList = ["1e39\n".toList] ∧
     readingTokens "b 1e39\n".toList = ["1e39\n".toList] ∧
     isValidSensorReading "1e39\n".toList = 1 ∧
     atofFloat "1e39\n".toList = floatInfinity ∧
     (readSensorData sqrtApprox atofFloat floatInfinity "a 1e39\nb 1e39\n".toList).output.map
        (fun r => (r.minReading, r.minTimestamp)) = some (floatInfinity, [' '])) ∧
    (readSensorData sqrtApprox atofFloat floatInfinity "a 7\nb 7\n".toList).output.map
        (fun r => (r.maxReading, r.maxTimestamp, r.minReading, r.minTimestamp))
      = some (7, ['a'], 7, ['a']) := by
  refine ⟨⟨by decide, by decide, by decide, by decide, by decide, by decide, by decide⟩,
    ⟨by decide, by decide, by decide, by decide, by decide, by decide, by decide⟩, by decide⟩

theorem whitespaceOnly_isSkipped (l : List Char) (h : whitespaceOnly l = true) :
    isSkipped (cstr l) = true := by
  have hall : ∀ c ∈ l, [' ', '\t', '\n', '\r'].contains c = true := by
    intro c hc
    have := (List.all_eq_true.mp h) c hc
    simp only [decide_eq_true_eq] at this
    simp only [List.contains_eq_any_beq, List.any_cons, List.any_nil, Bool.or_false,
      Bool.or_eq_true, beq_iff_eq]
    rcases this with e | e | e | e
    · exact Or.inl e
    · exact Or.inr (Or.inl e)
    · exact Or.inr (Or.inr (Or.inr e))
    · exact Or.inr (Or.inr (Or.inl e))
  have hsub : ∀ c ∈ cstr l, [' ', '\t', '\n', '\r'].contains c = true :=
    fun c hc => hall c ((List.takeWhile_sublist _).subset hc)
  have : strspn (cstr l) [' ', '\t', '\n', '\r'] = strlen (cstr l) := by
    unfold strspn strlen
    rw [List.takeWhile_eq_self_iff.mpr hsub]
  simp [isSkipped, this]

theorem nonBlankOf_filter (bufs : List (List Char)) :
    nonBlankOf (bufs.filter (fun l => !whitespaceOnly l)) = nonBlankOf bufs := by
  induction bufs with
  | nil => rfl
  | cons b bs ih =>
    have hcons : ∀ (x : List Char) (xs : List (List Char)),
        nonBlankOf (x :: xs) = if isSkipped (cstr x) = true then nonBlankOf xs
          else cstr x :: nonBlankOf xs := by
      intro x xs
      by_cases hx : isSkipped (cstr x) = true
      · simp [nonBlankOf, List.filter, hx]
      · have hx0 : isSkipped (cstr x) = false := by simpa using hx
        simp [nonBlankOf, List.filter, hx0]
    by_cases hw : whitespaceOnly b = true
    · have e : (b :: bs).filter (fun l => !whitespaceOnly l) = bs.filter (fun l => !whitespaceOnly l) := by
        simp [List.filter, hw]
      rw [e, ih, hcons b bs, if_pos (whitespaceOnly_isSkipped b hw)]
    · have hw0 : whitespaceOnly b = false := by simpa using hw
      have e : (b :: bs).filter (fun l => !whitespaceOnly l)
          = b :: bs.filter (fun l => !whitespaceOnly l) := by
        simp [List.filter, hw0]
      rw [e, hcons, hcons, ih]

/-- C5: for an input without a non-blank line (the empty stream, or only lines made of
spaces, tabs, carriage returns and newlines), `readSensorData` stops with the no-data
message and writes nothing to the output. -/
theorem readSensorData_no_data {V : Type} [LinearOrderedField V]
    (sqrt : V → V) (atof : List Char → V) (INFINITY : V) (inputFile : List Char)
    (h : ∀ l ∈ fileLines inputFile, whitespaceOnly l = true) :
    readSensorData sqrt atof INFINITY inputFile = .aborted (.exit .noSensorData) ∧
    (readSensorData sqrt atof INFINITY inputFile).output = none := by
  have hnb : nonBlankLines inputFile = [] := by
    unfold nonBlankLines nonBlankOf
    rw [List.filter_eq_nil_iff]
    intro l hl
    obtain ⟨b, hb, rfl⟩ := List.mem_map.mp hl
    simp [whitespaceOnly_isSkipped b (h b hb)]
  have hrun : readSensorData sqrt atof INFINITY inputFile = .aborted (.exit .noSensorData) := by
    rw [readSensorData_of_ok sqrt atof inputFile (initialState V INFINITY) (by rw [hnb]; rfl)]
    rfl
  exact ⟨hrun, by rw [hrun]; rfl⟩

theorem readSensorData_no_data_witness :
    (∀ l ∈ fileLines " \t\r\n\n   ".toList, whitespaceOnly l = true) ∧
    readSensorData sqrtApprox atofDecimal floatInfinity " \t\r\n\n   ".toList = .aborted (.exit .noSensorData) ∧
    readSensorData sqrtApprox atofDecimal floatInfinity [] = .aborted (.exit .noSensorData) :=
  ⟨by decide,
   (readSensorData_no_data sqrtApprox atofDecimal floatInfinity " \t\r\n\n   ".toList (by decide)).1,
   (readSensorData_no_data sqrtApprox atofDecimal floatInfinity [] (by decide)).1⟩

/-- C9: blank lines are transparent. Removing every line made only of spaces, tabs,
carriage returns and newlines from the sequence of lines read changes neither the result
of the reading loop (the error, or the final state with the extremes, their timestamps,
the stored readings and the line count) nor the outcome of `readSensorData`. -/
theorem readSensorData_blank_lines_transparent {V : Type} [LinearOrderedField V]
    (sqrt : V → V) (atof : List Char → V) (INFINITY : V) :
    (∀ (bufs : List (List Char)) (st : State V),
      ingestLines atof (bufs.filter (fun l => !whitespaceOnly l)) st = ingestLines atof bufs st) ∧
    (∀ f g : List Char, fileLines g = (fileLines f).filter (fun l => !whitespaceOnly l) →
      ingest atof INFINITY g = ingest atof INFINITY f ∧
      readSensorData sqrt atof INFINITY g = readSensorData sqrt atof INFINITY f) := by
  have h1 : ∀ (bufs : List (List Char)) (st : State V),
      ingestLines atof (bufs.filter (fun l => !whitespaceOnly l)) st
        = ingestLines atof bufs st := by
    intro bufs st
    rw [ingestLines_eq_ingestNonBlank, ingestLines_eq_ingestNonBlank, nonBlankOf_filter]
  refine ⟨h1, ?_⟩
  intro f g hfg
  have hi : ingest atof INFINITY g = ingest atof INFINITY f := by
    unfold ingest
    rw [hfg]
    exact h1 _ _
  exact ⟨hi, by unfold readSensorData; rw [hi]⟩

theorem readSensorData_blank_lines_transparent_witness :
    fileLines "a 1\nb 2\n".toList
      = (fileLines "\na 1\n \t\r\nb 2\n  ".toList).filter (fun l => !whitespaceOnly l) ∧
    readSensorData sqrtApprox atofDecimal floatInfinity "a 1\nb 2\n".toList
      = readSensorData sqrtApprox atofDecimal floatInfinity "\na 1\n \t\r\nb 2\n  ".toList :=
  ⟨by decide,
   ((readSensorData_blank_lines_transparent sqrtApprox atofDecimal floatInfinity).2
      "\na 1\n \t\r\nb 2\n  ".toList "a 1\nb 2\n".toList (by decide)).2⟩

theorem exists_first_split {α : Type} (p : α → Prop) [DecidablePred p] (ls : List α)
    (h : ∃ x ∈ ls, p x) :
    ∃ ls1 x ls2, ls = ls1 ++ x :: ls2 ∧ p x ∧ ∀ y ∈ ls1, ¬ p y := by
  induction ls with
  | nil => obtain ⟨x, hx, -⟩ := h; cases hx
  | cons a t ih =>
    by_cases ha : p a
    · exact ⟨[], a, t, rfl, ha, fun y hy => by cases hy⟩
    · have ht : ∃ x ∈ t, p x := by
        obtain ⟨x, hx, hpx⟩ := h
        rcases List.mem_cons.mp hx with e | e
        · subst e; exact absurd hpx ha
        · exact ⟨x, e, hpx⟩
      obtain ⟨ls1, x, ls2, e, hpx, hbefore⟩ := ih ht
      refine ⟨a :: ls1, x, ls2, by rw [e]; rfl, hpx, ?_⟩
      intro y hy
      rcases List.mem_cons.mp hy with e1 | e1
      · subst e1; exact ha
      · exact hbefore y e1

theorem lineTokens_ne_nil_of_mem (bufs : List (List Char)) (l : List Char)
    (h : l ∈ nonBlankOf bufs) : lineTokens l ≠ [] := by
  unfold nonBlankOf at h
  have := (List.mem_filter.mp h).2
  exact lineTokens_ne_nil l (by simpa using this)

theorem nonBlankOf_append (a b : List (List Char)) :
    nonBlankOf (a ++ b) = nonBlankOf a ++ nonBlankOf b := by
  simp [nonBlankOf]

/-- The loop reads the leading lines of the file as they are: when the lines up to and
including `t` fit the line buffer and `t` is not blank, the non-blank lines read start with
those among the lines before `t`, followed by `t`. -/
theorem nonBlankLines_of_leading_textLines (inputFile : List Char) (tl1 tl2 : List (List Char))
    (t l : List Char) (hsplit : textLines inputFile = tl1 ++ t :: tl2)
    (hline : nonBlankOf [t] = [l])
    (hfit : ∀ x ∈ tl1 ++ [t], x.length < MAX_LINE_LENGTH) :
    ∃ ls2, nonBlankLines inputFile = nonBlankOf tl1 ++ l :: ls2 := by
  obtain ⟨rest, e⟩ := fileLines_leading_textLines inputFile (tl1 ++ [t]) tl2
    (by rw [hsplit, List.append_assoc]; rfl) hfit
  refine ⟨nonBlankOf rest, ?_⟩
  unfold nonBlankLines
  rw [e, nonBlankOf_append, nonBlankOf_append, hline, List.append_assoc]
  rfl

theorem nonBlankLines_of_fit (inputFile : List Char)
    (hfit : ∀ x ∈ textLines inputFile, x.length < MAX_LINE_LENGTH) :
    nonBlankLines inputFile = nonBlankOf (textLines inputFile) := by
  unfold nonBlankLines
  rw [fileLines_eq_textLines inputFile hfit]

/-- The loop stops with the inconsistent-sensor-readings message at the first line whose
number of readings differs from that of the first line. -/
theorem ingestNonBlank_first_mismatch {V : Type} [LinearOrderedField V] (atof : List Char → V)
    (INFINITY : V) (ls1 ls2 : List (List Char)) (l : List Char)
    (htok : ∀ x ∈ ls1 ++ [l], lineTokens x ≠ [])
    (hvalid : ∀ x ∈ ls1 ++ [l], ∀ tok ∈ readingTokens x, isValidSensorReading tok ≠ 0)
    (hstamps : ∀ x ∈ ls1 ++ [l], (timestampToken x).length < BUFFER)
    (hrows : ls1.length < MAX_LINE_LENGTH)
    (hne : ls1 ≠ [])
    (hb : ∀ y ∈ ls1, (readingTokens y).length = (readingTokens (ls1.headD [])).length)
    (hl : (readingTokens l).length ≠ (readingTokens (ls1.headD [])).length) :
    ingestNonBlank atof (ls1 ++ l :: ls2) (initialState V INFINITY)
      = .error (.exit .inconsistentSensorReadings) := by
  cases ls1 with
  | nil => exact absurd rfl hne
  | cons l0 rest =>
    have hhead : (l0 :: rest).headD [] = l0 := rfl
    rw [hhead] at hl hb
    have hmem0 : l0 ∈ (l0 :: rest) ++ [l] := by simp
    by_cases hbig : MAX_SENSORS < (readingTokens l0).length
    · have := processTokens_mismatch atof [] l0 (initialState V INFINITY) (ingestInv_initial atof)
        (htok l0 hmem0) (hstamps l0 hmem0) (hvalid l0 hmem0) (by decide) (Or.inl hbig)
      simp only [List.cons_append, ingestNonBlank, this]
    · have hsub : ∀ x ∈ l0 :: rest, x ∈ (l0 :: rest) ++ [l] :=
        fun x hx => List.mem_append_left _ hx
      obtain ⟨st1, h1⟩ := ingestNonBlank_exists atof (l0 :: rest) [] (initialState V INFINITY)
        (ingestInv_initial atof)
        (fun x hx => htok x (hsub x hx)) (fun x hx => hstamps x (hsub x hx))
        (fun x hx => hvalid x (hsub x hx))
        (fun x hx => by rw [hb x hx]; omega)
        (fun x hx y hy => by rw [hb x hx, hb y (by simpa using hy)])
        (by rw [List.nil_append]; omega)
      have hinv := ingestNonBlank_ok_inv atof _ [] _ st1 (ingestInv_initial atof) h1
      rw [List.nil_append] at hinv
      have hmeml : l ∈ (l0 :: rest) ++ [l] := by simp
      have := processTokens_mismatch atof (l0 :: rest) l st1 hinv (htok l hmeml)
        (hstamps l hmeml) (hvalid l hmeml) hrows
        (Or.inr ⟨l0, List.mem_cons_self _ _, fun e => hl e.symm⟩)
      rw [ingestNonBlank_append, h1]
      simp only [ingestNonBlank, this]

/-- The loop stops with the invalid-reading message for the first rejected reading token
when it is among the first `MAX_SENSORS` readings of its line and the earlier lines are
ingested. -/
theorem ingestNonBlank_first_invalid {V : Type} [LinearOrderedField V] (atof : List Char → V)
    (INFINITY : V) (ls1 ls2 : List (List Char)) (l : List Char)
    (toks1 toks2 : List (List Char)) (tok : List Char)
    (htok : ∀ x ∈ ls1, lineTokens x ≠ [])
    (hrt : readingTokens l = toks1 ++ tok :: toks2)
    (hbad : isValidSensorReading tok = 0)
    (hbefore : ∀ t ∈ toks1, isValidSensorReading t ≠ 0)
    (hearlier : ∀ l1 ∈ ls1, ∀ t ∈ readingTokens l1, isValidSensorReading t ≠ 0)
    (hcounts : ∀ l1 ∈ ls1, (readingTokens l1).length = (readingTokens (ls1.headD [])).length)
    (hmax : (readingTokens (ls1.headD [])).length ≤ MAX_SENSORS)
    (hpos : toks1.length < MAX_SENSORS)
    (hstamps : ∀ l1 ∈ ls1 ++ [l], (timestampToken l1).length < BUFFER)
    (hrows : ls1.length < MAX_LINE_LENGTH) :
    ingestNonBlank atof (ls1 ++ l :: ls2) (initialState V INFINITY)
      = .error (.exit (.invalidSensorReading tok)) := by
  obtain ⟨st1, h1⟩ := ingestNonBlank_exists atof ls1 [] (initialState V INFINITY)
    (ingestInv_initial atof) htok
    (fun x hx => hstamps x (List.mem_append_left _ hx)) hearlier
    (fun x hx => by rw [hcounts x hx]; exact hmax)
    (fun x hx y hy => by rw [hcounts x hx, hcounts y (by simpa using hy)])
    (by rw [List.nil_append]; omega)
  have hinv := ingestNonBlank_ok_inv atof _ [] _ st1 (ingestInv_initial atof) h1
  rw [List.nil_append] at hinv
  have hline := processTokens_invalid atof ls1 l st1 toks1 toks2 tok hinv
    (hstamps l (by simp)) hrt hbefore hbad hpos hrows
  rw [ingestNonBlank_append, h1]
  simp only [ingestNonBlank, hline]

/-- C2 (amended): let `t` be the first non-blank line of the file whose number of readings
differs from that of the first non-blank line (`l` is `t` as the C string in the line
buffer). If, up to and including `t`, every line of the file fits the line buffer (fewer
than `MAX_LINE_LENGTH` characters with its newline), every reading token is valid and
every timestamp is shorter than `BUFFER`, and fewer than `MAX_LINE_LENGTH` non-blank lines
precede `t`, then `readSensorData` stops with the inconsistent-sensor-readings message and
writes nothing. If every line of the file fits the line buffer, every reading token is
valid, every timestamp is shorter than `BUFFER`, there are at most `MAX_LINE_LENGTH`
non-blank lines, and every non-blank line has the same number of readings as the first, at
most `MAX_SENSORS`, that message is not raised. -/
theorem readSensorData_inconsistent_column_count {V : Type} [LinearOrderedField V]
    (sqrt : V → V) (atof : List Char → V) (INFINITY : V) (inputFile : List Char) :
    (∀ (tl1 tl2 : List (List Char)) (t l : List Char),
      textLines inputFile = tl1 ++ t :: tl2 → nonBlankOf [t] = [l] →
      nonBlankOf tl1 ≠ [] →
      (∀ l1 ∈ nonBlankOf tl1, (readingTokens l1).length
          = (readingTokens ((nonBlankOf tl1).headD [])).length) →
      (readingTokens l).length ≠ (readingTokens ((nonBlankOf tl1).headD [])).length →
      (∀ x ∈ tl1 ++ [t], x.length < MAX_LINE_LENGTH) →
      (∀ l1 ∈ nonBlankOf tl1 ++ [l], ∀ tok ∈ readingTokens l1,
        isValidSensorReading tok ≠ 0) →
      (∀ l1 ∈ nonBlankOf tl1 ++ [l], (timestampToken l1).length < BUFFER) →
      (nonBlankOf tl1).length < MAX_LINE_LENGTH →
      readSensorData sqrt atof INFINITY inputFile
          = .aborted (.exit .inconsistentSensorReadings) ∧
        (readSensorData sqrt atof INFINITY inputFile).output = none) ∧
    ((∀ x ∈ textLines inputFile, x.length < MAX_LINE_LENGTH) →
      (∀ l ∈ nonBlankOf (textLines inputFile), ∀ tok ∈ readingTokens l,
        isValidSensorReading tok ≠ 0) →
      (∀ l ∈ nonBlankOf (textLines inputFile), (timestampToken l).length < BUFFER) →
      (nonBlankOf (textLines inputFile)).length ≤ MAX_LINE_LENGTH →
      (∀ l ∈ nonBlankOf (textLines inputFile), (readingTokens l).length
          = (readingTokens ((nonBlankOf (textLines inputFile)).headD [])).length) →
      (readingTokens ((nonBlankOf (textLines inputFile)).headD [])).length ≤ MAX_SENSORS →
      readSensorData sqrt atof INFINITY inputFile
        ≠ .aborted (.exit .inconsistentSensorReadings)) := by
  constructor
  · intro tl1 tl2 t l hsplit hline hne hb hl hfit hvalid hstamps hrows
    obtain ⟨ls2, hnb⟩ := nonBlankLines_of_leading_textLines inputFile tl1 tl2 t l hsplit hline hfit
    have htok : ∀ x ∈ nonBlankOf tl1 ++ [l], lineTokens x ≠ [] := by
      intro x hx
      apply lineTokens_ne_nil_of_mem (tl1 ++ [t]) x
      rw [nonBlankOf_append, hline]
      exact hx
    have hrun := ingestNonBlank_first_mismatch atof INFINITY (nonBlankOf tl1) ls2 l
      htok hvalid hstamps hrows hne hb hl
    have hout := readSensorData_of_error sqrt atof inputFile _ (by rw [hnb]; exact hrun)
    exact ⟨hout, by rw [hout]; rfl⟩
  · intro hfit hvalid hstamps hrows hsame hmax
    have hnb := nonBlankLines_of_fit inputFile hfit
    obtain ⟨st1, h1⟩ := ingestNonBlank_exists atof (nonBlankOf (textLines inputFile)) []
      (initialState V INFINITY) (ingestInv_initial atof)
      (fun x hx => lineTokens_ne_nil_of_mem _ x hx) hstamps hvalid
      (fun x hx => by rw [hsame x hx]; exact hmax)
      (fun x hx y hy => by rw [hsame x hx, hsame y (by simpa using hy)])
      (by rw [List.nil_append]; exact hrows)
    rw [readSensorData_of_ok sqrt atof inputFile st1 (by rw [hnb]; exact h1)]
    unfold finish
    split_ifs
    · intro e; cases e
    · intro e; cases e

set_option maxRecDepth 100000 in
theorem readSensorData_inconsistent_column_count_witness :
    (readSensorData sqrtApprox atofDecimal floatInfinity "a 1 2\nb 3\n".toList
      = .aborted (.exit .inconsistentSensorReadings)) ∧
    (readSensorData sqrtApprox atofDecimal floatInfinity "a 1 2\nb 3 4\n".toList
      ≠ .aborted (.exit .inconsistentSensorReadings)) :=
  ⟨((readSensorData_inconsistent_column_count sqrtApprox atofDecimal floatInfinity
      "a 1 2\nb 3\n".toList).1 ["a 1 2\n".toList] [] "b 3\n".toList "b 3\n".toList
      (by decide) (by decide) (by decide) (by decide) (by decide) (by decide) (by decide)
      (by decide) (by decide)).1,
   (readSensorData_inconsistent_column_count sqrtApprox atofDecimal floatInfinity
      "a 1 2\nb 3 4\n".toList).2 (by decide) (by decide) (by decide) (by decide) (by decide)
      (by decide)⟩

set_option maxRecDepth 100000 in
/-- C2 fails as stated. A single line with 101 valid readings has the same number of
readings as the first line on every line, yet the run stops with the
inconsistent-sensor-readings message (the test `numSensors >= MAX_SENSORS`). A log whose
second line has a different number of valid readings, after a first line with a timestamp
of 50 characters, does not reach that message: the copy of the timestamp runs past
`timeStamp[BUFFER]`. A single line of 501 characters with two valid readings is read in
two pieces with one and no reading, and the run stops with that message. And a line of
503 characters with three valid readings after a line with one reading is read in two
pieces with one reading each, and the run reaches the report. -/
theorem readSensorData_column_count_counterexample :
    ((∀ l ∈ nonBlankOf (textLines (lineOfOnes 101 [])), ∀ tok ∈ readingTokens l,
        isValidSensorReading tok = 1) ∧
     (∀ l ∈ nonBlankOf (textLines (lineOfOnes 101 [])), (readingTokens l).length
        = (readingTokens ((nonBlankOf (textLines (lineOfOnes 101 []))).headD [])).length) ∧
     (readSensorData sqrtApprox atofDecimal floatInfinity (lineOfOnes 101 [])).abort
        = some (.exit .inconsistentSensorReadings)) ∧
    ((∀ l ∈ nonBlankOf (textLines (longStampLog "b 1 2\n".toList)), ∀ tok ∈ readingTokens l,
        isValidSensorReading tok = 1) ∧
     (∃ l ∈ nonBlankOf (textLines (longStampLog "b 1 2\n".toList)), (readingTokens l).length
        ≠ (readingTokens
            ((nonBlankOf (textLines (longStampLog "b 1 2\n".toList))).headD [])).length) ∧
     (readSensorData sqrtApprox atofDecimal floatInfinity (longStampLog "b 1 2\n".toList)).abort
        = some .undefined) ∧
    (textLines (paddedLine "a 1".toList 496 "2\n".toList)
        = [paddedLine "a 1".toList 496 "2\n".toList] ∧
     (nonBlankOf (textLines (paddedLine "a 1".toList 496 "2\n".toList))).map
        (fun l => (timestampToken l, readingTokens l))
        = [("a".toList, ["1".toList, "2\n".toList])] ∧
     isValidSensorReading "1".toList = 1 ∧ isValidSensorReading "2\n".toList = 1 ∧
     (readSensorData sqrtApprox atofDecimal floatInfinity
        (paddedLine "a 1".toList 496 "2\n".toList)).abort
        = some (.exit .inconsistentSensorReadings)) ∧
    ((nonBlankOf (textLines ("a 1\n".toList ++ paddedLine "b 1".toList 496 "2 3\n".toList))).map
        (fun l => (timestampToken l, readingTokens l))
        = [("a".toList, ["1\n".toList]),
           ("b".toList, ["1".toList, "2".toList, "3\n".toList])] ∧
     isValidSensorReading "1\n".toList = 1 ∧ isValidSensorReading "2".toList = 1 ∧
     isValidSensorReading "3\n".toList = 1 ∧
     (readSensorData sqrtApprox atofDecimal floatInfinity
        ("a 1\n".toList ++ paddedLine "b 1".toList 496 "2 3\n".toList)).abort = none) := by
  refine ⟨⟨by decide, by decide, by decide⟩, ⟨by decide, by decide, by decide⟩,
    ⟨by decide, by decide, by decide, by decide, by decide⟩,
    ⟨by decide, by decide, by decide, by decide, by decide⟩⟩

/-- C8 (amended): let `t` be the line of the file that holds the first reading token `tok`
rejected by `isValidSensorReading` (`l` is `t` as the C string in the line buffer). If, up
to and including `t`, every line of the file fits the line buffer (fewer than
`MAX_LINE_LENGTH` characters with its newline) and every timestamp is shorter than
`BUFFER`, the non-blank lines before `t` have equal reading counts of at most
`MAX_SENSORS` and are fewer than `MAX_LINE_LENGTH`, and `tok` is among the first
`MAX_SENSORS` readings of `t`, then `readSensorData` stops with the invalid-reading
message that names `tok` and writes nothing to the output. -/
theorem readSensorData_invalid_reading_names_first_token {V : Type} [LinearOrderedField V]
    (sqrt : V → V) (atof : List Char → V) (INFINITY : V) (inputFile : List Char)
    (tl1 tl2 : List (List Char)) (t l : List Char)
    (toks1 toks2 : List (List Char)) (tok : List Char)
    (hsplit : textLines inputFile = tl1 ++ t :: tl2)
    (hline : nonBlankOf [t] = [l])
    (hrt : readingTokens l = toks1 ++ tok :: toks2)
    (hbad : isValidSensorReading tok = 0)
    (hbefore : ∀ x ∈ toks1, isValidSensorReading x ≠ 0)
    (hearlier : ∀ l1 ∈ nonBlankOf tl1, ∀ x ∈ readingTokens l1, isValidSensorReading x ≠ 0)
    (hfit : ∀ x ∈ tl1 ++ [t], x.length < MAX_LINE_LENGTH)
    (hcounts : ∀ l1 ∈ nonBlankOf tl1, (readingTokens l1).length
      = (readingTokens ((nonBlankOf tl1).headD [])).length)
    (hmax : (readingTokens ((nonBlankOf tl1).headD [])).length ≤ MAX_SENSORS)
    (hpos : toks1.length < MAX_SENSORS)
    (hstamps : ∀ l1 ∈ nonBlankOf tl1 ++ [l], (timestampToken l1).length < BUFFER)
    (hrows : (nonBlankOf tl1).length < MAX_LINE_LENGTH) :
    readSensorData sqrt atof INFINITY inputFile
      = .aborted (.exit (.invalidSensorReading tok)) ∧
    (readSensorData sqrt atof INFINITY inputFile).output = none := by
  obtain ⟨ls2, hnb⟩ := nonBlankLines_of_leading_textLines inputFile tl1 tl2 t l hsplit hline hfit
  have hrun := ingestNonBlank_first_invalid atof INFINITY (nonBlankOf tl1) ls2 l toks1 toks2 tok
    (fun x hx => lineTokens_ne_nil_of_mem _ x hx) hrt hbad hbefore hearlier hcounts hmax hpos
    hstamps hrows
  have hout := readSensorData_of_error sqrt atof inputFile _ (by rw [hnb]; exact hrun)
  exact ⟨hout, by rw [hout]; rfl⟩

theorem readSensorData_invalid_reading_names_first_token_witness :
    textLines "a 1 2\n\nb 3 x7 y\n".toList
      = ["a 1 2\n".toList, "\n".toList] ++ "b 3 x7 y\n".toList :: [] ∧
    readingTokens "b 3 x7 y\n".toList = ["3".toList] ++ "x7".toList :: ["y\n".toList] ∧
    readSensorData sqrtApprox atofDecimal floatInfinity "a 1 2\n\nb 3 x7 y\n".toList
      = .aborted (.exit (.invalidSensorReading "x7".toList)) :=
  ⟨by decide, by decide,
   (readSensorData_invalid_reading_names_first_token sqrtApprox atofDecimal floatInfinity
      "a 1 2\n\nb 3 x7 y\n".toList ["a 1 2\n".toList, "\n".toList] [] "b 3 x7 y\n".toList
      "b 3 x7 y\n".toList ["3".toList] ["y\n".toList] "x7".toList
      (by decide) (by decide) (by decide) (by decide) (by decide) (by decide) (by decide)
      (by decide) (by decide) (by decide) (by decide) (by decide)).1⟩

set_option maxRecDepth 100000 in
/-- C8 fails as stated. On a single line with 100 valid readings followed by the token
`abc`, the first rejected token is the 101st reading, and the run stops with the
inconsistent-sensor-readings message of the test `numSensors >= MAX_SENSORS`, not with the
invalid-reading message. When the line of the rejected token has a timestamp of 50
characters, the copy of the timestamp runs past `timeStamp[BUFFER]` before any message.
And on a single line of 502 characters whose second reading `12x` is rejected, the line is
read in two pieces, the second of which has no reading, and the run stops with the
inconsistent-sensor-readings message. -/
theorem readSensorData_invalid_reading_counterexample :
    (nonBlankOf (textLines (lineOfOnes 100 " abc".toList)) = [lineOfOnes 100 " abc".toList] ∧
     (readingTokens (lineOfOnes 100 " abc".toList)).drop 100 = ["abc\n".toList] ∧
     isValidSensorReading "abc\n".toList = 0 ∧
     (∀ t ∈ (readingTokens (lineOfOnes 100 " abc".toList)).take 100,
        isValidSensorReading t = 1) ∧
     (readSensorData sqrtApprox atofDecimal floatInfinity (lineOfOnes 100 " abc".toList)).abort
        = some (.exit .inconsistentSensorReadings)) ∧
    ((readingTokens (List.replicate BUFFER 'a' ++ " x\n".toList)) = ["x\n".toList] ∧
     isValidSensorReading "x\n".toList = 0 ∧
     (readSensorData sqrtApprox atofDecimal floatInfinity
        (List.replicate BUFFER 'a' ++ " x\n".toList)).abort = some .undefined) ∧
    (textLines (paddedLine "a 1 ".toList 494 "12x\n".toList)
        = [paddedLine "a 1 ".toList 494 "12x\n".toList] ∧
     (nonBlankOf (textLines (paddedLine "a 1 ".toList 494 "12x\n".toList))).map
        (fun l => (timestampToken l, readingTokens l))
        = [("a".toList, ["1".toList, "12x\n".toList])] ∧
     isValidSensorReading "1".toList = 1 ∧ isValidSensorReading "12x\n".toList = 0 ∧
     (readSensorData sqrtApprox atofDecimal floatInfinity
        (paddedLine "a 1 ".toList 494 "12x\n".toList)).abort
        = some (.exit .inconsistentSensorReadings)) := by
  refine ⟨⟨by decide, by decide, by decide, by decide, by decide⟩,
    ⟨by decide, by decide, by decide⟩,
    ⟨by decide, by decide, by decide, by decide, by decide⟩⟩

/-- C10: evaluation at the failing input. The line `t 1 2` followed by a space and the
newline yields the tokens `t`, `1`, `2` and a fourth token made of the newline alone;
`isValidSensorReading` rejects that token and the run stops with the invalid-reading
message, while the same line without the trailing space is ingested with two readings. -/
theorem readSensorData_trailing_whitespace_rejected :
    lineTokens "t 1 2 \n".toList = ["t".toList, "1".toList, "2".toList, "\n".toList] ∧
    isValidSensorReading "\n".toList = 0 ∧
    readSensorData sqrtApprox atofDecimal floatInfinity "t 1 2 \n".toList
      = .aborted (.exit (.invalidSensorReading "\n".toList)) ∧
    lineTokens "t 1 2\n".toList = ["t".toList, "1".toList, "2\n".toList] ∧
    (readSensorData sqrtApprox atofDecimal floatInfinity "t 1 2\n".toList).abort = none ∧
    (readSensorData sqrtApprox atofDecimal floatInfinity "t 1 2\n".toList).output.map
      (fun r => r.sensorCount) = some 2 := by
  refine ⟨by decide, by decide, ?_, by decide, by decide, by decide⟩
  have h : (readSensorData sqrtApprox atofDecimal floatInfinity "t 1 2 \n".toList).abort
      = some (.exit (.invalidSensorReading "\n".toList)) := by decide
  cases hr : readSensorData sqrtApprox atofDecimal floatInfinity "t 1 2 \n".toList with
  | aborted a =>
    rw [hr] at h
    simp only [Outcome.abort, Option.some.injEq] at h
    rw [h]
  | reported r =>
    rw [hr] at h
    cases h

/-! ## The reported extremes (C11) -/

theorem mem_stampedReadings_iff {V : Type} (atof : List Char → V) (ls : List (List Char))
    (p : List Char × V) (h : p ∈ stampedReadings atof ls) :
    ∃ l ∈ ls, ∃ tok ∈ readingTokens l, p = (timestampToken l, atof tok) := by
  unfold stampedReadings at h
  rw [List.mem_flatten] at h
  obtain ⟨row, hrow, hp⟩ := h
  obtain ⟨l, hl, rfl⟩ := List.mem_map.mp hrow
  obtain ⟨tok, ht, rfl⟩ := List.mem_map.mp hp
  exact ⟨l, hl, tok, ht, rfl⟩

/-- When a run reaches the report with a maximum that differs from the initial `-INFINITY`
(respectively with a minimum that differs from the initial `INFINITY`), that extreme is a
reading of a line read and its timestamp is the timestamp token of such a line. -/
theorem readSensorData_moved_extremes_are_readings {V : Type} [LinearOrderedField V]
    (sqrt : V → V) (atof : List Char → V) (INFINITY : V) (inputFile : List Char) (r : Report V)
    (h : readSensorData sqrt atof INFINITY inputFile = .reported r) :
    (r.maxReading ≠ -INFINITY →
      ∃ l ∈ nonBlankLines inputFile, ∃ tok ∈ readingTokens l,
        atof tok = r.maxReading ∧ r.maxTimestamp = timestampToken l) ∧
    (r.minReading ≠ INFINITY →
      ∃ l ∈ nonBlankLines inputFile, ∃ tok ∈ readingTokens l,
        atof tok = r.minReading ∧ r.minTimestamp = timestampToken l) := by
  obtain ⟨st, hinv, -, e1, e2, e3, e4, -, -⟩ :=
    readSensorData_reported sqrt atof inputFile r h
  rw [e1, e2, e3, e4]
  constructor
  · intro hne
    have hfind := hinv.extremes.maxFirst hne
    obtain ⟨l, hl, tok, ht, hp⟩ :=
      mem_stampedReadings_iff atof _ _ (List.mem_of_find?_eq_some hfind)
    injection hp with hp1 hp2
    exact ⟨l, hl, tok, ht, hp2.symm, hp1⟩
  · intro hne
    have hfind := hinv.extremes.minFirst hne
    obtain ⟨l, hl, tok, ht, hp⟩ :=
      mem_stampedReadings_iff atof _ _ (List.mem_of_find?_eq_some hfind)
    injection hp with hp1 hp2
    exact ⟨l, hl, tok, ht, hp2.symm, hp1⟩

/-- C11: evaluation at the failing input. The log made of the line `a` alone has a
timestamp and no reading; the run reaches the report with the initial values: maximum
`-INFINITY`, minimum `INFINITY`, both with the timestamp made of one space, and no
sensor. -/
theorem readSensorData_reports_initial_extremes_without_reading :
    nonBlankLines "a\n".toList = ["a\n".toList] ∧
    timestampToken "a\n".toList = "a\n".toList ∧
    readingTokens "a\n".toList = [] ∧
    (readSensorData sqrtApprox atofFloat floatInfinity "a\n".toList).abort = none ∧
    (readSensorData sqrtApprox atofFloat floatInfinity "a\n".toList).output.map
      (fun r => (r.maxReading, r.maxTimestamp, r.minReading, r.minTimestamp, r.sensorCount))
      = some (-floatInfinity, [' '], floatInfinity, [' '], 0) := by
  refine ⟨by decide, by decide, by decide, by decide, by decide⟩

/-! ## The report and the validator (C12) -/

theorem digitChar_isdigit (n : Nat) : isdigit (digitChar n) = true := by
  unfold digitChar
  have h : n % 10 < 10 := Nat.mod_lt _ (by decide)
  generalize n % 10 = d at h
  interval_cases d <;> decide

theorem decimalDigits_spec (fuel : Nat) :
    ∀ n, decimalDigits fuel n ≠ [] ∧ ∀ c ∈ decimalDigits fuel n, isdigit c = true := by
  induction fuel with
  | zero =>
    intro n
    refine ⟨by simp [decimalDigits], ?_⟩
    intro c hc
    simp only [decimalDigits, List.mem_singleton] at hc
    rw [hc]; exact digitChar_isdigit n
  | succ f ih =>
    intro n
    unfold decimalDigits
    by_cases h : n < 10
    · rw [if_pos h]
      refine ⟨by simp, ?_⟩
      intro c hc
      simp only [List.mem_singleton] at hc
      rw [hc]; exact digitChar_isdigit n
    · rw [if_neg h]
      refine ⟨by simp, ?_⟩
      intro c hc
      rcases List.mem_append.mp hc with e | e
      · exact (ih (n / 10)).2 c e
      · simp only [List.mem_singleton] at e
        rw [e]; exact digitChar_isdigit n

/-- The digits do not depend on the fuel once it reaches `n`: the fuel of `printfD` is
enough. -/
theorem decimalDigits_fuel (n : Nat) :
    ∀ fuel1 fuel2, n ≤ fuel1 → n ≤ fuel2 → decimalDigits fuel1 n = decimalDigits fuel2 n := by
  induction n using Nat.strong_induction_on with
  | _ n ih =>
    intro fuel1 fuel2 h1 h2
    by_cases h : n < 10
    · cases fuel1 <;> cases fuel2 <;> simp [decimalDigits, h]
    · obtain ⟨f1, rfl⟩ : ∃ f1, fuel1 = f1 + 1 := ⟨fuel1 - 1, by omega⟩
      obtain ⟨f2, rfl⟩ : ∃ f2, fuel2 = f2 + 1 := ⟨fuel2 - 1, by omega⟩
      unfold decimalDigits
      rw [if_neg h, if_neg h, ih (n / 10) (by omega) f1 f2 (by omega) (by omega)]

theorem fixedTwo_form (negative : Bool) (n : Nat) : FixedTwoForm (fixedTwo negative n) := by
  refine ⟨if negative then ['-'] else [], printfD (n / 100), digitChar (n / 10), digitChar n,
    rfl, ?_, (decimalDigits_spec _ _).1, (decimalDigits_spec _ _).2,
    digitChar_isdigit _, digitChar_isdigit _⟩
  cases negative
  · exact Or.inl rfl
  · exact Or.inr rfl

theorem fixedTwoForm_readingForm (s : List Char) (h : FixedTwoForm s) :
    ReadingForm s ∧ '\n' ∉ s ∧ NUL ∉ s := by
  obtain ⟨sg, ds, d1, d2, rfl, hsg, hne, hds, h1, h2⟩ := h
  have hdot : ∀ c, isdigit c = true → c ≠ '.' := fun c hc => (isdigit_facts hc).2.2.1
  have hcount : ds.count '.' = 0 := by
    rw [List.count_eq_zero]
    intro hm
    exact hdot _ (hds _ hm) rfl
  refine ⟨⟨sg, ds ++ ['.', d1, d2], [], by simp, ?_, ⟨?_, ?_, ?_⟩, Or.inl rfl⟩, ?_, ?_⟩
  · rcases hsg with e | e
    · exact Or.inl e
    · exact Or.inr (Or.inr e)
  · intro c hc
    rcases List.mem_append.mp hc with e | e
    · exact Or.inl (hds c e)
    · simp only [List.mem_cons, List.mem_singleton, List.not_mem_nil, or_false] at e
      rcases e with e | e | e
      · exact Or.inr e
      · exact Or.inl (e ▸ h1)
      · exact Or.inl (e ▸ h2)
  · rw [List.count_append, hcount, List.count_cons_self,
      List.count_cons_of_ne (Ne.symm (hdot d1 h1)), List.count_cons_of_ne (Ne.symm (hdot d2 h2))]
    simp
  · obtain ⟨c, hc⟩ := List.exists_mem_of_ne_nil ds hne
    exact ⟨c, List.mem_append_left _ hc, hds c hc⟩
  · intro hm
    simp only [List.mem_append, List.mem_cons, List.mem_singleton, List.not_mem_nil,
      or_false] at hm
    rcases hm with (hm | hm) | hm
    · rcases hsg with e | e
      · rw [e] at hm; cases hm
      · rw [e] at hm; simp at hm
    · exact (isdigit_facts (hds _ hm)).2.1 rfl
    · rcases hm with e | e | e
      · exact absurd e (by decide)
      · exact (isdigit_facts h1).2.1 e.symm
      · exact (isdigit_facts h2).2.1 e.symm
  · intro hm
    simp only [List.mem_append, List.mem_cons, List.mem_singleton, List.not_mem_nil,
      or_false] at hm
    rcases hm with (hm | hm) | hm
    · rcases hsg with e | e
      · rw [e] at hm; cases hm
      · rw [e] at hm
        simp only [List.mem_singleton] at hm
        exact absurd hm (by decide)
    · exact (isdigit_facts (hds _ hm)).1 rfl
    · rcases hm with e | e | e
      · exact absurd e (by decide)
      · exact (isdigit_facts h1).1 e.symm
      · exact (isdigit_facts h2).1 e.symm

/-- C12: round trip between the report and the validator. Every string made of an optional
`-`, one or more digits, `.` and two digits is accepted by `isValidSensorReading`, and the
text that `printData` writes for a finite mean or standard deviation with the conversion
`%.2f` has that form, so it is accepted. -/
theorem printData_values_accepted_by_validator :
    (∀ s : List Char, FixedTwoForm s → isValidSensorReading s = 1) ∧
    (∀ x : ℚ, FixedTwoForm (printfF2 x) ∧ isValidSensorReading (printfF2 x) = 1) ∧
    (∀ (i : Nat) (mean std_dev : ℚ),
      sensorLines i mean std_dev =
        ["Sensor ".toList ++ printfD (i + 1) ++ ":\n".toList,
         "  - mean: ".toList ++ printfF2 mean ++ "\n".toList,
         "  - deviation: ".toList ++ printfF2 std_dev ++ "\n".toList]) ∧
    fixedTwo false 500 = "5.00".toList ∧ fixedTwo false 214 = "2.14".toList ∧
    fixedTwo true 0 = "-0.00".toList := by
  have h1 : ∀ s : List Char, FixedTwoForm s → isValidSensorReading s = 1 := by
    intro s hs
    obtain ⟨hform, hnl, hnul⟩ := fixedTwoForm_readingForm s hs
    exact (isValidSensorReading_eq_one_iff s hnl hnul).mpr hform
  refine ⟨h1, ?_, fun _ _ _ => rfl, by decide, by decide, by decide⟩
  intro x
  have := fixedTwo_form (decide (x < 0)) (roundHalfEven ((if x < 0 then -x else x) * 100))
  exact ⟨this, h1 _ this⟩

theorem printData_values_accepted_by_validator_witness :
    FixedTwoForm "-12.50".toList ∧ isValidSensorReading "-12.50".toList = 1 ∧
    isValidSensorReading (printfF2 (14966629 / 7000000)) = 1 := by
  have hf : FixedTwoForm "-12.50".toList :=
    ⟨['-'], ['1', '2'], '5', '0', by decide, Or.inr rfl, by decide, by decide, by decide,
      by decide⟩
  exact ⟨hf, printData_values_accepted_by_validator.1 _ hf,
    (printData_values_accepted_by_validator.2.1 _).2⟩

/-! ## The change machine (C13, C14) -/

theorem int32_of_range (x : Int) (h1 : -2147483648 ≤ x) (h2 : x < 2147483648) :
    int32 x = x := by
  unfold int32
  omega

/-- One iteration of the loop of `centsToBills` on non-negative values in the range of
`int`, for a denomination `d > 0`: the count dispensed is within the inventory and the
amount left decreases by the value dispensed. -/
theorem centsToBillsStep_spec (i : Nat) (s : ChangeState) (d : Int)
    (hd : values.getD i 0 = d) (hdpos : 0 < d)
    (hc : 0 ≤ s.cents) (hc2 : s.cents < 2147483648)
    (hinv : 0 ≤ s.inventory (i + 1)) (hinv2 : s.inventory (i + 1) < 2147483648) :
    0 ≤ (centsToBillsStep i s).arr (i + 1) ∧
    (centsToBillsStep i s).arr (i + 1) ≤ s.inventory (i + 1) ∧
    (centsToBillsStep i s).inventory (i + 1)
      = s.inventory (i + 1) - (centsToBillsStep i s).arr (i + 1) ∧
    s.cents = d * (centsToBillsStep i s).arr (i + 1) + (centsToBillsStep i s).cents ∧
    0 ≤ (centsToBillsStep i s).cents ∧ (centsToBillsStep i s).cents ≤ s.cents ∧
    (∀ k, k ≠ i + 1 → (centsToBillsStep i s).arr k = s.arr k ∧
      (centsToBillsStep i s).inventory k = s.inventory k) := by
  have hq : Int.tdiv s.cents d = s.cents / d := Int.tdiv_eq_ediv hc (le_of_lt hdpos)
  have hq0 : 0 ≤ s.cents / d := Int.ediv_nonneg hc (le_of_lt hdpos)
  have hqm : s.cents / d * d ≤ s.cents := Int.ediv_mul_le _ (ne_of_gt hdpos)
  unfold centsToBillsStep
  rw [hd, hq]
  by_cases hreq : s.cents / d ≤ s.inventory (i + 1)
  · rw [if_pos hreq]
    have e1 : int32 (s.cents / d * d) = s.cents / d * d :=
      int32_of_range _ (by nlinarith) (by omega)
    have e2 : int32 (s.cents - s.cents / d * d) = s.cents - s.cents / d * d :=
      int32_of_range _ (by omega) (by nlinarith)
    have e3 : int32 (s.inventory (i + 1) - s.cents / d) = s.inventory (i + 1) - s.cents / d :=
      int32_of_range _ (by omega) (by omega)
    simp only [Function.update_same, e1, e2, e3]
    refine ⟨hq0, hreq, trivial, by ring, by omega, by nlinarith, ?_⟩
    intro k hk
    exact ⟨Function.update_noteq hk _ _, Function.update_noteq hk _ _⟩
  · rw [if_neg hreq]
    have hlt : s.inventory (i + 1) < s.cents / d := not_le.mp hreq
    have hm : s.inventory (i + 1) * d ≤ s.cents / d * d :=
      Int.mul_le_mul_of_nonneg_right (le_of_lt hlt) (le_of_lt hdpos)
    have hm0 : 0 ≤ s.inventory (i + 1) * d := Int.mul_nonneg hinv (le_of_lt hdpos)
    have e1 : int32 (s.inventory (i + 1) * d) = s.inventory (i + 1) * d :=
      int32_of_range _ (by omega) (by omega)
    have e2 : int32 (s.cents - s.inventory (i + 1) * d) = s.cents - s.inventory (i + 1) * d :=
      int32_of_range _ (by omega) (by omega)
    simp only [Function.update_same, e1, e2]
    refine ⟨hinv, le_refl _, by ring, by ring, by omega, by omega, ?_⟩
    intro k hk
    exact ⟨Function.update_noteq hk _ _, Function.update_noteq hk _ _⟩

/-- C13: for every amount `cents >= 0` and every inventory with non-negative counts (values
of type `int`), `centsToBills` dispenses counts of the denominations 1000, 200, 25, 10 and 1
that are each between 0 and the old inventory of the denomination, the new inventory is the
old one minus the count, and the returned leftover satisfies
`cents = 1000*d1 + 200*d2 + 25*d3 + 10*d4 + 1*d5 + leftover` with `0 <= leftover <= cents`. -/
theorem centsToBills_dispenses_within_inventory (cents : Int) (arr inventory : Nat → Int)
    (hc : 0 ≤ cents) (hc2 : cents < 2147483648)
    (hinv : ∀ k, 1 ≤ k → k ≤ 5 → 0 ≤ inventory k ∧ inventory k < 2147483648) :
    (∀ k, 1 ≤ k → k ≤ 5 →
      0 ≤ (centsToBills cents arr inventory).arr k ∧
      (centsToBills cents arr inventory).arr k ≤ inventory k ∧
      (centsToBills cents arr inventory).inventory k
        = inventory k - (centsToBills cents arr inventory).arr k) ∧
    cents = 1000 * (centsToBills cents arr inventory).arr 1
      + 200 * (centsToBills cents arr inventory).arr 2
      + 25 * (centsToBills cents arr inventory).arr 3
      + 10 * (centsToBills cents arr inventory).arr 4
      + 1 * (centsToBills cents arr inventory).arr 5
      + (centsToBills cents arr inventory).cents ∧
    0 ≤ (centsToBills cents arr inventory).cents ∧
    (centsToBills cents arr inventory).cents ≤ cents := by
  have hrange : List.range 5 = [0, 1, 2, 3, 4] := by decide
  have hrun : centsToBills cents arr inventory =
      centsToBillsStep 4 (centsToBillsStep 3 (centsToBillsStep 2 (centsToBillsStep 1
        (centsToBillsStep 0 { cents := cents, arr := arr, inventory := inventory })))) := by
    unfold centsToBills
    rw [hrange]
    rfl
  rw [hrun]
  generalize hs0 : ({ cents := cents, arr := arr, inventory := inventory } : ChangeState) = s0
  have c0 : s0.cents = cents := by rw [← hs0]
  have i0 : s0.inventory = inventory := by rw [← hs0]
  obtain ⟨a1, b1, e1, q1, n1, m1, f1⟩ := centsToBillsStep_spec 0 s0 1000 rfl (by decide)
    (by rw [c0]; exact hc) (by rw [c0]; exact hc2)
    (by rw [i0]; exact (hinv 1 (by decide) (by decide)).1)
    (by rw [i0]; exact (hinv 1 (by decide) (by decide)).2)
  generalize centsToBillsStep 0 s0 = s1 at a1 b1 e1 q1 n1 m1 f1 ⊢
  obtain ⟨a2, b2, e2, q2, n2, m2, f2⟩ := centsToBillsStep_spec 1 s1 200 rfl (by decide)
    n1 (by omega)
    (by rw [(f1 2 (by decide)).2, i0]; exact (hinv 2 (by decide) (by decide)).1)
    (by rw [(f1 2 (by decide)).2, i0]; exact (hinv 2 (by decide) (by decide)).2)
  generalize centsToBillsStep 1 s1 = s2 at a2 b2 e2 q2 n2 m2 f2 ⊢
  obtain ⟨a3, b3, e3, q3, n3, m3, f3⟩ := centsToBillsStep_spec 2 s2 25 rfl (by decide)
    n2 (by omega)
    (by rw [(f2 3 (by decide)).2, (f1 3 (by decide)).2, i0]
        exact (hinv 3 (by decide) (by decide)).1)
    (by rw [(f2 3 (by decide)).2, (f1 3 (by decide)).2, i0]
        exact (hinv 3 (by decide) (by decide)).2)
  generalize centsToBillsStep 2 s2 = s3 at a3 b3 e3 q3 n3 m3 f3 ⊢
  obtain ⟨a4, b4, e4, q4, n4, m4, f4⟩ := centsToBillsStep_spec 3 s3 10 rfl (by decide)
    n3 (by omega)
    (by rw [(f3 4 (by decide)).2, (f2 4 (by decide)).2, (f1 4 (by decide)).2, i0]
        exact (hinv 4 (by decide) (by decide)).1)
    (by rw [(f3 4 (by decide)).2, (f2 4 (by decide)).2, (f1 4 (by decide)).2, i0]
        exact (hinv 4 (by decide) (by decide)).2)
  generalize centsToBillsStep 3 s3 = s4 at a4 b4 e4 q4 n4 m4 f4 ⊢
  obtain ⟨a5, b5, e5, q5, n5, m5, f5⟩ := centsToBillsStep_spec 4 s4 1 rfl (by decide)
    n4 (by omega)
    (by rw [(f4 5 (by decide)).2, (f3 5 (by decide)).2, (f2 5 (by decide)).2,
          (f1 5 (by decide)).2, i0]
        exact (hinv 5 (by decide) (by decide)).1)
    (by rw [(f4 5 (by decide)).2, (f3 5 (by decide)).2, (f2 5 (by decide)).2,
          (f1 5 (by decide)).2, i0]
        exact (hinv 5 (by decide) (by decide)).2)
  generalize centsToBillsStep 4 s4 = s5 at a5 b5 e5 q5 n5 m5 f5 ⊢
  simp only [Nat.zero_add, Nat.reduceAdd] at a1 b1 e1 a2 b2 e2 a3 b3 e3 a4 b4 e4
  simp only [Nat.zero_add, Nat.reduceAdd] at q1 q2 q3 q4
  simp only [Nat.reduceAdd] at a5 b5 e5 q5
  -- the final arrays in terms of the steps
  have r1 : s5.arr 1 = s1.arr 1 := by
    rw [(f5 1 (by decide)).1, (f4 1 (by decide)).1, (f3 1 (by decide)).1, (f2 1 (by decide)).1]
  have r2 : s5.arr 2 = s2.arr 2 := by
    rw [(f5 2 (by decide)).1, (f4 2 (by decide)).1, (f3 2 (by decide)).1]
  have r3 : s5.arr 3 = s3.arr 3 := by
    rw [(f5 3 (by decide)).1, (f4 3 (by decide)).1]
  have r4 : s5.arr 4 = s4.arr 4 := by
    rw [(f5 4 (by decide)).1]
  have v1 : s5.inventory 1 = s1.inventory 1 := by
    rw [(f5 1 (by decide)).2, (f4 1 (by decide)).2, (f3 1 (by decide)).2, (f2 1 (by decide)).2]
  have v2 : s5.inventory 2 = s2.inventory 2 := by
    rw [(f5 2 (by decide)).2, (f4 2 (by decide)).2, (f3 2 (by decide)).2]
  have v3 : s5.inventory 3 = s3.inventory 3 := by
    rw [(f5 3 (by decide)).2, (f4 3 (by decide)).2]
  have v4 : s5.inventory 4 = s4.inventory 4 := by
    rw [(f5 4 (by decide)).2]
  have o1 : s0.inventory 1 = inventory 1 := by rw [i0]
  have o2 : s1.inventory 2 = inventory 2 := by rw [(f1 2 (by decide)).2, i0]
  have o3 : s2.inventory 3 = inventory 3 := by
    rw [(f2 3 (by decide)).2, (f1 3 (by decide)).2, i0]
  have o4 : s3.inventory 4 = inventory 4 := by
    rw [(f3 4 (by decide)).2, (f2 4 (by decide)).2, (f1 4 (by decide)).2, i0]
  have o5 : s4.inventory 5 = inventory 5 := by
    rw [(f4 5 (by decide)).2, (f3 5 (by decide)).2, (f2 5 (by decide)).2,
      (f1 5 (by decide)).2, i0]
  refine ⟨?_, ?_, n5, by omega⟩
  · intro k hk1 hk5
    have hk : k = 1 ∨ k = 2 ∨ k = 3 ∨ k = 4 ∨ k = 5 := by omega
    rcases hk with rfl | rfl | rfl | rfl | rfl
    · rw [r1, v1, ← o1]; exact ⟨a1, b1, e1⟩
    · rw [r2, v2, ← o2]; exact ⟨a2, b2, e2⟩
    · rw [r3, v3, ← o3]; exact ⟨a3, b3, e3⟩
    · rw [r4, v4, ← o4]; exact ⟨a4, b4, e4⟩
    · rw [← o5]; exact ⟨a5, b5, e5⟩
  · rw [r1, r2, r3, r4, ← c0]
    omega

theorem centsToBills_dispenses_within_inventory_witness :
    (0 : Int) ≤ 1289 ∧
    (centsToBills 1289 (fun _ => 0) (inventoryOf 2 1 2 5 3)).arr 1 = 1 ∧
    1289 = 1000 * (centsToBills 1289 (fun _ => 0) (inventoryOf 2 1 2 5 3)).arr 1
      + 200 * (centsToBills 1289 (fun _ => 0) (inventoryOf 2 1 2 5 3)).arr 2
      + 25 * (centsToBills 1289 (fun _ => 0) (inventoryOf 2 1 2 5 3)).arr 3
      + 10 * (centsToBills 1289 (fun _ => 0) (inventoryOf 2 1 2 5 3)).arr 4
      + 1 * (centsToBills 1289 (fun _ => 0) (inventoryOf 2 1 2 5 3)).arr 5
      + (centsToBills 1289 (fun _ => 0) (inventoryOf 2 1 2 5 3)).cents ∧
    (centsToBills 1289 (fun _ => 0) (inventoryOf 2 1 2 5 3)).cents = 6 :=
  ⟨by decide, by decide,
   (centsToBills_dispenses_within_inventory 1289 (fun _ => 0) (inventoryOf 2 1 2 5 3)
      (by decide) (by decide)
      (by
        intro k h1 h5
        have hk : k = 1 ∨ k = 2 ∨ k = 3 ∨ k = 4 ∨ k = 5 := by omega
        rcases hk with rfl | rfl | rfl | rfl | rfl <;> decide)).2.1,
   by decide⟩

/-- C14: evaluation at the failing input. With one quarter, three dimes and nothing else in
the inventory, the amount of 30 cents is the sum of three dimes, which the inventory holds,
yet `centsToBills` dispenses the quarter, finds no penny for the remaining 5 cents and
returns the leftover 5. -/
theorem centsToBills_leftover_on_dispensable_amount :
    (centsToBills 30 (fun _ => 0) (inventoryOf 0 0 1 3 0)).cents = 5 ∧
    (centsToBills 30 (fun _ => 0) (inventoryOf 0 0 1 3 0)).arr 3 = 1 ∧
    (centsToBills 30 (fun _ => 0) (inventoryOf 0 0 1 3 0)).arr 4 = 0 ∧
    (30 : Int) = 1000 * 0 + 200 * 0 + 25 * 0 + 10 * 3 + 1 * 0 ∧
    (0 : Int) ≤ inventoryOf 0 0 1 3 0 1 ∧ (0 : Int) ≤ inventoryOf 0 0 1 3 0 2 ∧
    (0 : Int) ≤ inventoryOf 0 0 1 3 0 3 ∧ (3 : Int) ≤ inventoryOf 0 0 1 3 0 4 ∧
    (0 : Int) ≤ inventoryOf 0 0 1 3 0 5 := by
  refine ⟨by decide, by decide, by decide, by decide, by decide, by decide, by decide,
    by decide, by decide⟩

/-! ## The falling-body simulation (C15) -/

/-- The rows of the simulation do not depend on the fuel once it covers the iterations left
before `loop_count` reaches `MAX_ITERATIONS`: the fuel of `fallTable` is enough. -/
theorem fallLoop_fuel (mass time_interval : ℚ) (fuel1 : Nat) :
    ∀ (fuel2 : Nat) (s : FallState), s.loop_count < MAX_ITERATIONS →
      MAX_ITERATIONS ≤ s.loop_count + fuel1 → MAX_ITERATIONS ≤ s.loop_count + fuel2 →
      fallLoop mass time_interval fuel1 s = fallLoop mass time_interval fuel2 s := by
  induction fuel1 with
  | zero => intro fuel2 s h0 h1 h2; omega
  | succ f1 ih =>
    intro fuel2 s h0 h1 h2
    obtain ⟨f2, rfl⟩ : ∃ f2, fuel2 = f2 + 1 := ⟨fuel2 - 1, by omega⟩
    have hc : (fallStep mass time_interval s).loop_count = s.loop_count + 1 := rfl
    rw [fallLoop, fallLoop]
    by_cases hcont : (fallStep mass time_interval s).height > 0 ∧
        (fallStep mass time_interval s).loop_count < MAX_ITERATIONS
    · rw [if_pos hcont, if_pos hcont,
        ih f2 (fallStep mass time_interval s) hcont.2 (by omega) (by omega)]
    · rw [if_neg hcont, if_neg hcont]

theorem fallStep_first (mass : ℚ) (hm : 0 < mass) :
    fallStep mass (1 / 10) { loop_count := 0, velocity := 0, time_initial := 0, height := 2 }
      = { loop_count := 1, velocity := 4903 / 5000, time_initial := 1 / 10,
          height := 185291 / 100000 } := by
  have hne : mass ≠ 0 := ne_of_gt hm
  have hacc : (mass * GRAVITY - HALF * (CROSSAREA * DENSITY * DRAG * 0 * 0)) / mass
      = 4903 / 500 := by
    unfold GRAVITY
    field_simp
    ring
  unfold fallStep
  simp only [hacc]
  norm_num [HALF]

theorem roundHalfEven_floor (q : ℚ) (n : Nat) (h1 : (n : ℚ) ≤ q) (h2 : q < (n : ℚ) + 1 / 2) :
    roundHalfEven q = n := by
  have hf : ⌊q⌋ = (n : Int) := by
    rw [Int.floor_eq_iff]
    constructor
    · exact_mod_cast h1
    · have : q < (n : ℚ) + 1 := by linarith
      exact_mod_cast this
  unfold roundHalfEven
  rw [hf, Int.toNat_ofNat]
  rw [if_pos (by linarith)]

/-- C15: evaluation at the failing input. For initial height 2.00 m, time interval 0.1 s
and every positive mass, the first time step gives exactly the velocity 0.9806 and the
height 1.85291, so the row printed after the initial row 2.00 / 0.00 shows the velocity
0.98 and the height 1.85, not the height 1.95 of the table in the file header. -/
theorem fallTable_first_step_height (mass : ℚ) (hm : 0 < mass) :
    (fallTable 2 mass (1 / 10)).take 2
      = [(0, 2, 0), (1 / 10, 185291 / 100000, 4903 / 5000)] ∧
    printfF2 (185291 / 100000) = "1.85".toList ∧
    printfF2 (4903 / 5000) = "0.98".toList ∧
    printfF2 (185291 / 100000) ≠ "1.95".toList := by
  have hrows : (fallTable 2 mass (1 / 10)).take 2
      = [(0, 2, 0), (1 / 10, 185291 / 100000, 4903 / 5000)] := by
    have h2000 : MAX_ITERATIONS = 1999 + 1 := rfl
    unfold fallTable
    rw [h2000, fallLoop, fallStep_first mass hm]
    rfl
  have hh : printfF2 (185291 / 100000) = "1.85".toList := by
    have hr : roundHalfEven ((if (185291 / 100000 : ℚ) < 0 then -(185291 / 100000 : ℚ)
        else 185291 / 100000) * 100) = 185 := by
      rw [if_neg (by norm_num)]
      exact roundHalfEven_floor _ 185 (by norm_num) (by norm_num)
    have hn : decide ((185291 / 100000 : ℚ) < 0) = false := by
      rw [decide_eq_false_iff_not]; norm_num
    unfold printfF2
    rw [hr, hn]
    decide
  have hv : printfF2 (4903 / 5000) = "0.98".toList := by
    have hr : roundHalfEven ((if (4903 / 5000 : ℚ) < 0 then -(4903 / 5000 : ℚ)
        else 4903 / 5000) * 100) = 98 := by
      rw [if_neg (by norm_num)]
      exact roundHalfEven_floor _ 98 (by norm_num) (by norm_num)
    have hn : decide ((4903 / 5000 : ℚ) < 0) = false := by
      rw [decide_eq_false_iff_not]; norm_num
    unfold printfF2
    rw [hr, hn]
    decide
  refine ⟨hrows, hh, hv, ?_⟩
  rw [hh]
  decide

theorem fallTable_first_step_height_witness :
    (0 : ℚ) < 7 ∧
    (fallTable 2 7 (1 / 10)).take 2 = [(0, 2, 0), (1 / 10, 185291 / 100000, 4903 / 5000)] :=
  ⟨by norm_num, (fallTable_first_step_height 7 (by norm_num)).1⟩

/-! ## The malformed-line branch (C16) -/

theorem readingsLoop_error_ne_improperlyFormatted {V : Type} [LinearOrderedField V]
    (atof : List Char → V) :
    ∀ (toks : List (List Char)) (st : State V),
      readingsLoop atof toks st ≠ .error (.exit .improperlyFormatted) := by
  intro toks
  induction toks with
  | nil => intro st h; cases h
  | cons t rest ih =>
    intro st
    rw [readingsLoop]
    by_cases h1 : st.numSensors ≥ MAX_SENSORS
    · rw [if_pos h1]; intro h; cases h
    · by_cases h2 : isValidSensorReading t = 0
      · rw [if_neg h1, if_pos h2]; intro h; cases h
      · by_cases h3 : st.totalReadings ≥ MAX_LINE_LENGTH
        · rw [if_neg h1, if_neg h2, if_pos h3]; intro h; cases h
        · rw [if_neg h1, if_neg h2, if_neg h3]; exact ih _

theorem processTokens_ne_improperlyFormatted {V : Type} [LinearOrderedField V]
    (atof : List Char → V) (tokens : List (List Char)) (st : State V) (hne : tokens ≠ []) :
    processTokens atof tokens st ≠ .error (.exit .improperlyFormatted) := by
  cases tokens with
  | nil => exact absurd rfl hne
  | cons ts toks =>
    by_cases hfit : ts.length + 1 ≤ BUFFER
    · rw [processTokens_cons atof ts toks st hfit]
      cases hrl : readingsLoop atof toks { st with numSensors := 0, timeStamp := ts } with
      | error a =>
        dsimp only
        intro h
        injection h with h
        exact readingsLoop_error_ne_improperlyFormatted atof toks _ (by rw [hrl, h])
      | ok st1 =>
        dsimp only
        by_cases h1 : st1.expectedSensorCount = -1
        · rw [if_pos h1]; intro h; cases h
        · by_cases h2 : (st1.numSensors : Int) ≠ st1.expectedSensorCount
          · rw [if_neg h1, if_pos h2]; intro h; cases h
          · rw [if_neg h1, if_neg h2]; intro h; cases h
    · have : processTokens atof (ts :: toks) st = .error .undefined := by
        unfold processTokens
        simp only [strcpy, if_neg hfit]
      rw [this]
      intro h; cases h

theorem ingestLines_ne_improperlyFormatted {V : Type} [LinearOrderedField V]
    (atof : List Char → V) :
    ∀ (bufs : List (List Char)) (st : State V),
      ingestLines atof bufs st ≠ .error (.exit .improperlyFormatted) := by
  intro bufs
  induction bufs with
  | nil => intro st h; cases h
  | cons b bs ih =>
    intro st
    rw [ingestLines]
    cases hp : processLine atof b st with
    | error a =>
      simp only
      intro h
      injection h with h
      subst h
      unfold processLine at hp
      by_cases hs : isSkipped (cstr b) = true
      · rw [if_pos hs] at hp; cases hp
      · rw [if_neg hs] at hp
        exact processTokens_ne_improperlyFormatted atof _ st
          (lineTokens_ne_nil _ (by simpa using hs)) hp
    | ok st1 => exact ih st1

theorem isSkipped_eq_false_iff (l : List Char) (hnul : NUL ∉ l) :
    isSkipped l = false ↔ ∃ c ∈ l, ¬ (c = ' ' ∨ c = '\t' ∨ c = '\r' ∨ c = '\n') := by
  constructor
  · intro h
    by_contra hall
    push_neg at hall
    have hw : whitespaceOnly l = true := by
      unfold whitespaceOnly
      rw [List.all_eq_true]
      intro c hc
      simpa using hall c hc
    have hsk := whitespaceOnly_isSkipped l hw
    have hc : cstr l = l := by
      unfold cstr
      rw [List.takeWhile_eq_self_iff]
      intro c hc
      simp only [ne_eq, decide_not, Bool.not_eq_true', decide_eq_false_iff_not]
      exact fun e => hnul (e ▸ hc)
    rw [hc, h] at hsk
    cases hsk
  · rintro ⟨c, hc, hcw⟩
    have hne : l ≠ [] := fun e => by rw [e] at hc; cases hc
    have h0 : charAt l 0 ≠ NUL := by
      cases l with
      | nil => exact absurd rfl hne
      | cons a t =>
        show a ≠ NUL
        exact fun e => hnul (e ▸ List.mem_cons_self _ _)
    have hlt : strspn l [' ', '\t', '\n', '\r'] ≠ strlen l := by
      unfold strspn strlen
      intro e
      have hall := List.takeWhile_eq_self_iff.mp
        ((List.takeWhile_prefix _).eq_of_length e)
      have := hall c hc
      simp only [List.contains_eq_any_beq, List.any_cons, List.any_nil, Bool.or_false,
        Bool.or_eq_true, beq_iff_eq] at this
      apply hcw
      rcases this with e | e | e | e
      · exact Or.inl e
      · exact Or.inr (Or.inl e)
      · exact Or.inr (Or.inr (Or.inr e))
      · exact Or.inr (Or.inr (Or.inl e))
    simp [isSkipped, h0, hlt]

/-- C16: the malformed-line branch of `readSensorData` is unreachable. A line that the
blank-line test does not skip (for a line without NUL: a line with a character other than
space, tab, carriage return and newline) has a first token, and no run stops with the
improperly-formatted-data message. -/
theorem readSensorData_never_improperly_formatted {V : Type} [LinearOrderedField V]
    (sqrt : V → V) (atof : List Char → V) (INFINITY : V) :
    (∀ l : List Char, isSkipped l = false →
      ∃ token rest saved, lineTokens l = token :: rest ∧
        strtok tokenDelims l = some (token, saved)) ∧
    (∀ l : List Char, NUL ∉ l →
      (isSkipped l = false ↔ ∃ c ∈ l, ¬ (c = ' ' ∨ c = '\t' ∨ c = '\r' ∨ c = '\n'))) ∧
    (∀ inputFile : List Char,
      readSensorData sqrt atof INFINITY inputFile ≠ .aborted (.exit .improperlyFormatted)) := by
  refine ⟨?_, isSkipped_eq_false_iff, ?_⟩
  · intro l h
    have hne := lineTokens_ne_nil l h
    have hlen : l.length ≠ 0 := by
      intro e
      rw [List.length_eq_zero] at e
      subst e
      exact hne rfl
    obtain ⟨n, hn⟩ := Nat.exists_eq_succ_of_ne_zero hlen
    unfold lineTokens at hne ⊢
    rw [hn, strtokAll] at hne ⊢
    cases hst : strtok tokenDelims l with
    | none => rw [hst] at hne; exact absurd rfl hne
    | some p =>
      obtain ⟨token, saved⟩ := p
      exact ⟨token, _, saved, rfl, rfl⟩
  · intro inputFile h
    cases hi : ingestNonBlank atof (nonBlankLines inputFile) (initialState V INFINITY) with
    | error a =>
      rw [readSensorData_of_error sqrt atof inputFile a hi] at h
      injection h with h
      subst h
      rw [← ingest_eq_ingestNonBlank] at hi
      exact ingestLines_ne_improperlyFormatted atof _ _ hi
    | ok st =>
      rw [readSensorData_of_ok sqrt atof inputFile st hi] at h
      unfold finish at h
      split_ifs at h
      cases h

theorem readSensorData_never_improperly_formatted_witness :
    isSkipped "  \t x\n".toList = false ∧
    lineTokens "  \t x\n".toList = ["x\n".toList] ∧
    readSensorData sqrtApprox atofDecimal floatInfinity "  \t x\n".toList
      ≠ .aborted (.exit .improperlyFormatted) := by
  obtain ⟨token, rest, saved, h, -⟩ :=
    (readSensorData_never_improperly_formatted sqrtApprox atofDecimal floatInfinity).1
      "  \t x\n".toList (by decide)
  exact ⟨by decide, by decide,
    (readSensorData_never_improperly_formatted sqrtApprox atofDecimal floatInfinity).2.2 _⟩

/-! ## The stores into the table (C17) -/

/-- The run of the inner loop is undefined exactly when one of its stores falls outside
the rows of the table. -/
theorem readingsLoop_undefined_iff {V : Type} [LinearOrderedField V] (atof : List Char → V) :
    ∀ (toks : List (List Char)) (st : State V),
      readingsLoop atof toks st = .error .undefined ↔
        ∃ p ∈ readingsLoopStores atof toks st, MAX_LINE_LENGTH ≤ p.2 := by
  intro toks
  induction toks with
  | nil =>
    intro st
    constructor
    · intro h; cases h
    · rintro ⟨p, hp, -⟩; cases hp
  | cons t rest ih =>
    intro st
    rw [readingsLoop, readingsLoopStores]
    by_cases h1 : st.numSensors ≥ MAX_SENSORS
    · rw [if_pos h1, if_pos h1]
      constructor
      · intro h; cases h
      · rintro ⟨p, hp, -⟩; cases hp
    · by_cases h2 : isValidSensorReading t = 0
      · rw [if_neg h1, if_pos h2, if_neg h1, if_pos h2]
        constructor
        · intro h; cases h
        · rintro ⟨p, hp, -⟩; cases hp
      · by_cases h3 : st.totalReadings ≥ MAX_LINE_LENGTH
        · rw [if_neg h1, if_neg h2, if_pos h3, if_neg h1, if_neg h2, if_pos h3]
          constructor
          · intro _
            exact ⟨_, List.mem_cons_self _ _, h3⟩
          · intro _; rfl
        · rw [if_neg h1, if_neg h2, if_neg h3, if_neg h1, if_neg h2, if_neg h3]
          have := ih (storeReading atof t st)
          constructor
          · intro h
            obtain ⟨p, hp, hb⟩ := this.mp h
            exact ⟨p, List.mem_cons_of_mem _ hp, hb⟩
          · rintro ⟨p, hp, hb⟩
            rcases List.mem_cons.mp hp with e | e
            · subst e
              exact absurd hb (by show ¬ MAX_LINE_LENGTH ≤ st.totalReadings; omega)
            · exact this.mpr ⟨p, e, hb⟩

